import Mathlib

/-!
Verification development for the claude-subconscious synchronization engine.

The TypeScript sources are shallowly embedded: strings are Lean `String`s
(JS `.length`/`.substring` count UTF-16 code units; we count characters,
which agrees on the basic multilingual plane), JSON-bearing fields become
`Option`-typed record fields, fallible network calls are modelled by their
HTTP status code, and `process.env` reads become explicit parameters.
JS truthiness on strings (empty string is falsy) is modelled explicitly.
-/

namespace JsSem

/-- JS truthiness of an optional string field: absent and empty are falsy. -/
def truthyS : Option String → Bool
  | some s => !s.isEmpty
  | none => false

/-- JS `a || b` on optional strings: the left operand unless it is falsy. -/
def jsOrS : Option String → Option String → Option String
  | some s, b => if s.isEmpty then b else some s
  | none, b => b

/-- JS `a || "dflt"` where the result is used as a string. -/
def jsOrD (a : Option String) (dflt : String) : String :=
  match a with
  | some s => if s.isEmpty then dflt else s
  | none => dflt

/-- `response.ok` of the fetch API: status in the inclusive range 200-299. -/
def isOkStatus (status : Nat) : Bool := 200 ≤ status && status < 300

/-- Whitespace recognised by JS `parseInt` / `String.prototype.trimEnd`
(the WhiteSpace and LineTerminator productions; the common code points). -/
def isJsWhitespace (c : Char) : Bool :=
  c.toNat ∈ [9, 10, 11, 12, 13, 32, 160, 0x1680, 0x2000, 0x2001, 0x2002, 0x2003,
    0x2004, 0x2005, 0x2006, 0x2007, 0x2008, 0x2009, 0x200A, 0x2028, 0x2029,
    0x202F, 0x205F, 0x3000, 0xFEFF]

/-- The value of a leading decimal-digit run, `none` when the run is empty. -/
def digitsVal (cs : List Char) : Option Nat :=
  let ds := cs.takeWhile Char.isDigit
  if ds.isEmpty then none
  else some (ds.foldl (fun acc c => acc * 10 + (c.toNat - 48)) 0)

/-- JS `parseInt(s, 10)`: skip leading whitespace, optional sign, then the
longest leading digit run; `none` models `NaN`. -/
def jsParseInt10 (s : String) : Option Int :=
  let cs := s.toList.dropWhile isJsWhitespace
  match cs with
  | '-' :: rest => (digitsVal rest).map (fun n => -(n : Int))
  | '+' :: rest => (digitsVal rest).map (fun n => (n : Int))
  | _ => (digitsVal cs).map (fun n => (n : Int))

/-- JS `String.prototype.toLowerCase` restricted to the code points our
strings use (ASCII letters); `Char.toLower` maps A-Z to a-z. -/
def jsToLower (s : String) : String := ⟨s.data.map Char.toLower⟩

/-- JS `String.prototype.trimEnd` on a character list. -/
def jsTrimEnd (l : List Char) : List Char :=
  (l.reverse.dropWhile isJsWhitespace).reverse

end JsSem

namespace AgentConfig

open JsSem

/-- Case-insensitive hexadecimal digit, the character class of
`AGENT_ID_REGEX` (`[0-9a-f]` under the `i` flag). -/
def isHexDigitI (c : Char) : Bool :=
  ('0' ≤ c && c ≤ '9') || ('a' ≤ c && c ≤ 'f') || ('A' ≤ c && c ≤ 'F')

/-- Consume exactly `n` hex digits, returning the remaining characters. -/
def hexRun : Nat → List Char → Option (List Char)
  | 0, cs => some cs
  | _ + 1, [] => none
  | n + 1, c :: cs => if isHexDigitI c then hexRun n cs else none

/-- Consume a literal dash. -/
def expectDash : List Char → Option (List Char)
  | '-' :: cs => some cs
  | _ => none

/-- The part of `AGENT_ID_REGEX` after the `agent-` literal:
hex runs of lengths 8-4-4-4-12 separated by dashes, then end of string. -/
def agentIdTail (cs : List Char) : Bool :=
  ((((((((((hexRun 8 cs).bind expectDash).bind (hexRun 4)).bind expectDash).bind
      (hexRun 4)).bind expectDash).bind (hexRun 4)).bind expectDash).bind
      (hexRun 12)).map List.isEmpty).getD false

/-- `isValidAgentId`: full-string match of
`/^agent-[0-9a-f]{8}-[0-9a-f]{4}-[0-9a-f]{4}-[0-9a-f]{4}-[0-9a-f]{12}$/i`.
The `i` flag applies to the whole pattern, including the literal `agent-`
prefix, so the prefix is compared after ASCII case folding. -/
def isValidAgentId (s : String) : Bool :=
  "agent-".toList.isPrefixOf (s.toList.map Char.toLower) && agentIdTail (s.toList.drop 6)

/-- A hex segment of the shape the spec describes: exactly `n` hexadecimal
characters, case-insensitively. -/
def IsHexSeg (n : Nat) (cs : List Char) : Prop :=
  cs.length = n ∧ ∀ c ∈ cs, isHexDigitI c = true

/-- Modelled from the spec wording (not from the code): a string of the form
`agent-` followed by hexadecimal segments of lengths 8-4-4-4-12 separated by
dashes, everything case-insensitive (the spec accepts the uppercase form of
its example id, prefix included). Used to compare the code regex against the
spec. -/
def SpecAgentIdShape (s : String) : Prop :=
  ∃ p a b c d e : List Char,
    s.toList = p ++ (a ++ '-' :: (b ++ '-' :: (c ++ '-' :: (d ++ '-' :: e)))) ∧
    p.map Char.toLower = "agent-".toList ∧
    IsHexSeg 8 a ∧ IsHexSeg 4 b ∧ IsHexSeg 4 c ∧ IsHexSeg 4 d ∧ IsHexSeg 12 e

/-- The first line of `getInvalidAgentIdMessage` (the remaining remediation
lines are elided; no claim depends on their text). -/
def getInvalidAgentIdMessage (agentId : String) : String :=
  "Invalid LETTA_AGENT_ID format: " ++ agentId

/-- The persisted global config record (`config.json`). -/
structure Config where
  agentId : Option String := none
  importedAt : Option String := none
  model : Option String := none
deriving DecidableEq

/-- Where the resolved agent id came from (precedence steps 1-3). -/
inductive AgentIdSource
  | envVar
  | savedConfig
  | importedDefault
deriving DecidableEq

/-- Result of the agent-id resolution: the id, which precedence step
produced it, and the config-file content after resolution. -/
structure ResolvedAgent where
  agentId : String
  source : AgentIdSource
  savedCfg : Config
deriving DecidableEq

/-- `importAndSaveAgent`: import succeeds with `freshImportId` and the config
file is overwritten with the new id and import timestamp `now`. -/
def importAndSaveAgent (freshImportId now : String) : ResolvedAgent :=
  { agentId := freshImportId
    source := .importedDefault
    savedCfg := { agentId := some freshImportId, importedAt := some now, model := none } }

/-- Steps 1-3 of `getAgentId`: the `LETTA_AGENT_ID` environment override, the
saved config, then import of the bundled default agent. A malformed explicit
override throws; a malformed saved id is discarded and the default imported.
(Step 4, `ensureModelAvailable`, never changes the returned id and is modelled
separately via `buildLlmConfig`.) -/
def getAgentId (envAgentId : Option String) (config : Config)
    (freshImportId now : String) : Except String ResolvedAgent :=
  if JsSem.truthyS envAgentId then
    match envAgentId with
    | some envId =>
        if isValidAgentId envId then
          .ok { agentId := envId, source := .envVar, savedCfg := config }
        else
          .error (getInvalidAgentIdMessage envId)
    | none => .error ("unreachable: truthy implies present")
  else if JsSem.truthyS config.agentId then
    match config.agentId with
    | some savedId =>
        if isValidAgentId savedId then
          .ok { agentId := savedId, source := .savedConfig, savedCfg := config }
        else
          .ok (importAndSaveAgent freshImportId now)
    | none => .error ("unreachable: truthy implies present")
  else
    .ok (importAndSaveAgent freshImportId now)

/-- One entry of the `GET /models/` listing. -/
structure LettaModel where
  model : String
  name : String
  provider_type : String
  handle : Option String := none
  display_name : Option String := none
deriving DecidableEq

/-- An opaque JSON number literal: the engine only ever passes these through,
so its text suffices. -/
abbrev JsonNum := String

/-- The agent llm_config record. The open index signature
`[key: string]: unknown` is modelled by the `extra` association list of
serialized values. -/
structure LlmConfig where
  model : Option String := none
  handle : Option String := none
  provider_name : Option String := none
  model_endpoint_type : Option String := none
  model_endpoint : Option String := none
  provider_category : Option String := none
  context_window : Option Int := none
  max_tokens : Option Int := none
  temperature : Option JsonNum := none
  enable_reasoner : Option Bool := none
  max_reasoning_tokens : Option Int := none
  extra : List (String × String) := []
deriving DecidableEq

/-- `findModel`: locate a model in the available list by handle, bare model
name, or provider+name composite, case-insensitively. -/
def findModel (models : List LettaModel) (modelHandle : String) : Option LettaModel :=
  let normalizedHandle := JsSem.jsToLower modelHandle
  models.find? fun m =>
    let handle := JsSem.jsOrD ((m.handle).map JsSem.jsToLower)
      (JsSem.jsToLower (m.provider_type ++ "/" ++ m.model))
    handle = normalizedHandle
      || JsSem.jsToLower m.model = normalizedHandle
      || JsSem.jsToLower (m.provider_type ++ "/" ++ m.name) = normalizedHandle

/-- `buildLlmConfig`: spread the current config, overwrite the model-identity
fields from the handle and the available-models lookup, then apply the
`LETTA_CONTEXT_WINDOW` override when it parses as a positive integer.
`envContextWindow` is the `process.env.LETTA_CONTEXT_WINDOW` read. -/
def buildLlmConfig (modelHandle : String) (models : List LettaModel)
    (currentConfig : Option LlmConfig) (envContextWindow : Option String) : LlmConfig :=
  let base := currentConfig.getD {}
  let idx? := modelHandle.toList.findIdx? (· = '/')
  let providerName : Option String :=
    match idx? with
    | some i => if 0 < i then some (modelHandle.toList.take i).asString else none
    | none => none
  let modelName : String :=
    match idx? with
    | some i => if 0 < i then (modelHandle.toList.drop (i + 1)).asString else modelHandle
    | none => modelHandle
  let modelInfo := findModel models modelHandle
  let config : LlmConfig :=
    { base with
      model := some modelName
      handle := some modelHandle
      provider_name :=
        JsSem.jsOrS providerName
          (JsSem.jsOrS (modelInfo.map (·.provider_type)) base.provider_name)
      model_endpoint_type :=
        JsSem.jsOrS (modelInfo.map (·.provider_type)) base.model_endpoint_type }
  if JsSem.truthyS envContextWindow then
    match envContextWindow.bind JsSem.jsParseInt10 with
    | some parsed => if 0 < parsed then { config with context_window := some parsed } else config
    | none => config
  else config

end AgentConfig

namespace SendMessages

open JsSem

/-- One element of a structured content array in the transcript. -/
structure ContentPart where
  type : String
  text : Option String := none
  thinking : Option String := none
deriving DecidableEq

/-- The `content` field of a transcript message: a plain string or a
structured array of parts. -/
inductive ContentVal
  | str (s : String)
  | arr (parts : List ContentPart)
deriving DecidableEq

/-- The `tool_result` field. A non-string JSON value is modelled by its JS
truthiness together with its `JSON.stringify` rendering. -/
inductive ToolResultVal
  | str (s : String)
  | other (truthy : Bool) (stringified : String)
deriving DecidableEq

/-- The nested `message` object of the Claude Code transcript format. -/
structure MessageBody where
  role : Option String := none
  content : Option ContentVal := none
deriving DecidableEq

/-- A parsed transcript JSONL line. -/
structure TranscriptMessage where
  type : Option String := none
  role : Option String := none
  content : Option ContentVal := none
  message : Option MessageBody := none
  tool_name : Option String := none
  tool_result : Option ToolResultVal := none
  timestamp : Option String := none
  uuid : Option String := none
deriving DecidableEq

def defaultMsg : TranscriptMessage := {}

/-- JSON string escaping as performed by `JSON.stringify`. -/
def jsonEscapeChar (c : Char) : String :=
  if c = '"' then "\\\""
  else if c = '\\' then "\\\\"
  else if c = '\n' then "\\n"
  else if c = '\r' then "\\r"
  else if c = '\t' then "\\t"
  else if c = Char.ofNat 8 then "\\b"
  else if c = Char.ofNat 12 then "\\f"
  else if c.toNat < 32 then
    "\\u00" ++ String.mk [Nat.digitChar (c.toNat / 16), Nat.digitChar (c.toNat % 16)]
  else String.mk [c]

def jsonEscape (s : String) : String :=
  String.join (s.toList.map jsonEscapeChar)

def jsonStr (s : String) : String := "\"" ++ jsonEscape s ++ "\""

/-- `JSON.stringify` of one content part (fields in declaration order,
absent fields omitted). -/
def stringifyPart (p : ContentPart) : String :=
  let fields :=
    [some ("\"type\":" ++ jsonStr p.type)]
      ++ [p.text.map (fun t => "\"text\":" ++ jsonStr t)]
      ++ [p.thinking.map (fun t => "\"thinking\":" ++ jsonStr t)]
  "\x7b" ++ String.intercalate (",") (fields.filterMap id) ++ "\x7d"

/-- `JSON.stringify` of a content array. -/
def stringifyParts (ps : List ContentPart) : String :=
  "[" ++ String.intercalate (",") (ps.map stringifyPart) ++ "]"

/-- `extractContent`: prefer `msg.message.content` (nullish coalescing), use a
plain string as-is, and from an array keep only truthy `text` parts,
joined with newlines; `null` when nothing is extractable. -/
def extractContent (msg : TranscriptMessage) : Option String :=
  let content :=
    match msg.message.bind (·.content) with
    | some c => some c
    | none => msg.content
  match content with
  | some (.str s) => some s
  | some (.arr parts) =>
      let textParts :=
        (parts.filter (fun c => c.type = "text" && truthyS c.text)).filterMap (·.text)
      if 0 < textParts.length then some (String.intercalate ("\n") textParts) else none
  | none => none

/-- The value of `msg.tool_result || msg.content` in the tool-result branch. -/
inductive ToolBodyVal
  | fromTool (v : ToolResultVal)
  | fromContent (v : ContentVal)
deriving DecidableEq

def toolValTruthy : ToolResultVal → Bool
  | .str s => !s.isEmpty
  | .other t _ => t

def contentValTruthy : ContentVal → Bool
  | .str s => !s.isEmpty
  | .arr _ => true

def toolBodyTruthy : ToolBodyVal → Bool
  | .fromTool v => toolValTruthy v
  | .fromContent v => contentValTruthy v

/-- `typeof result === 'string' ? result : JSON.stringify(result)`. -/
def toolBodyText : ToolBodyVal → String
  | .fromTool (.str s) => s
  | .fromTool (.other _ r) => r
  | .fromContent (.str s) => s
  | .fromContent (.arr ps) => stringifyParts ps

/-- `msg.tool_result || msg.content` (JS `||`: the right operand when the
left is absent or falsy). -/
def toolResultSource (msg : TranscriptMessage) : Option ToolBodyVal :=
  match msg.tool_result with
  | some v => if toolValTruthy v then some (.fromTool v) else msg.content.map .fromContent
  | none => msg.content.map .fromContent

/-- The extracted tool-result body of a message, when the tool branch would
forward it: `msg.tool_result || msg.content`, required truthy, rendered to a
string. -/
def toolBody (msg : TranscriptMessage) : Option String :=
  match toolResultSource msg with
  | some r => if toolBodyTruthy r then some (toolBodyText r) else none
  | none => none

/-- The classification guards of the `formatMessagesForLetta` loop, in the
source branch order. -/
def isUserMsg (msg : TranscriptMessage) : Bool :=
  msg.type = some ("user") || msg.type = some ("human") || msg.role = some ("user")

def isAssistantMsg (msg : TranscriptMessage) : Bool :=
  msg.type = some ("assistant") || msg.role = some ("assistant")

def isToolResultMsg (msg : TranscriptMessage) : Bool :=
  msg.type = some ("tool_result") || truthyToolField msg.tool_result
where
  truthyToolField : Option ToolResultVal → Bool
    | some v => toolValTruthy v
    | none => false

/-- The truncation applied to a single tool-result body. -/
def truncateToolResult (resultText : String) : String :=
  if 2000 < resultText.length then resultText.take 2000 ++ "... [truncated]"
  else resultText

/-- `${msg.tool_name || 'unknown'}`. -/
def toolNameDisplay (msg : TranscriptMessage) : String :=
  jsOrD msg.tool_name ("unknown")

/-- The body of one iteration of the `formatMessagesForLetta` loop:
the forwarded `(role, text)` entry for a message, or `none` when the message
is dropped. -/
def formatMsg (msg : TranscriptMessage) : Option (String × String) :=
  if isUserMsg msg then
    match extractContent msg with
    | some content => if content.isEmpty then none else some ("user", content)
    | none => none
  else if isAssistantMsg msg then
    match extractContent msg with
    | some content => if content.isEmpty then none else some ("assistant", content)
    | none => none
  else if isToolResultMsg msg then
    match toolBody msg with
    | some resultText =>
        some ("system",
          "[Tool Result: " ++ toolNameDisplay msg ++ "]\n" ++ truncateToolResult resultText)
    | none => none
  else none

/-- `formatMessagesForLetta(messages, startIndex)`: iterate the events at
indices strictly greater than `startIndex` in order, keeping the formatted
entries. (`startIndex` is a persisted cursor, hence an integer that may be
-1.) -/
def formatMessagesForLetta (messages : List TranscriptMessage) (startIndex : Int) :
    List (String × String) :=
  (messages.drop (startIndex + 1).toNat).filterMap formatMsg

/-- The transcript indices whose events contribute a formatted entry when
formatting from a given cursor. -/
def forwardedIndices (messages : List TranscriptMessage) (cursor : Int) : List Nat :=
  (List.range messages.length).filter
    (fun i => decide (cursor < (i : Int)) && (formatMsg (messages.getD i defaultMsg)).isSome)

end SendMessages

namespace SyncMachine

open SendMessages JsSem

/-- The per-session sync-state file `session-{id}.json` (the `startedAt`
field written by the SessionStart hook carries no logic and is elided). -/
structure SessFile where
  lastProcessedIndex : Int
  conversationId : Option String := none
deriving DecidableEq

/-- The durable `.letta/claude` state of one project directory: the
per-session files and the `conversations.json` map. -/
structure FileState where
  sessions : String → Option SessFile
  convMap : String → Option String

/-- Whole-file overwrite of one key of a persisted map. -/
def updFun {α : Type} (f : String → Option α) (k : String) (v : Option α) :
    String → Option α :=
  fun x => if x = k then v else f x

def emptyFS : FileState := { sessions := fun _ => none, convMap := fun _ => none }

/-- `loadSyncState`: the session file, defaulting to a fresh cursor. -/
def loadSyncState (fs : FileState) (sid : String) : SessFile :=
  (fs.sessions sid).getD { lastProcessedIndex := -1, conversationId := none }

/-- One lifecycle invocation touching the project state. `fresh` is the id a
`POST /conversations` would create; `createStatus`/`sendStatus` are the HTTP
statuses of conversation creation and message delivery. -/
inductive HookOp
  | sessionStart (sid fresh : String) (createStatus sendStatus : Nat)
  | stopHook (sid : String) (transcript : List TranscriptMessage)
      (fresh : String) (createStatus sendStatus : Nat)

def HookOp.sid : HookOp → String
  | .sessionStart s _ _ _ => s
  | .stopHook s _ _ _ _ => s

/-- Result of one invocation: the conversation id it resolved (if it got that
far), the transcript indices whose content was delivered, and the state. -/
structure OpResult where
  resolvedConv : Option String
  forwarded : List Nat
  state : FileState

/-- `saveSessionState` of the SessionStart hook: overwrite the session file
with the conversation id and `lastProcessedIndex: -1`. -/
def saveSessionState (fs : FileState) (sid convId : String) : FileState :=
  { fs with
    sessions := updFun fs.sessions sid
      (some { lastProcessedIndex := -1, conversationId := some convId }) }

/-- `main` of session_start.ts: reuse the mapped conversation or create one
and save the map, then overwrite the session state; a failed creation
raises and writes nothing. (The final session-start message send happens
after the state writes and cannot undo them.) -/
def sessionStartMain (sid fresh : String) (createStatus : Nat) (fs : FileState) :
    OpResult :=
  match fs.convMap sid with
  | some conversationId => ⟨some conversationId, [], saveSessionState fs sid conversationId⟩
  | none =>
      if isOkStatus createStatus then
        let fs1 : FileState := { fs with convMap := updFun fs.convMap sid (some fresh) }
        ⟨some fresh, [], saveSessionState fs1 sid fresh⟩
      else ⟨none, [], fs⟩

/-- The tail of `main` of send_messages_to_letta.ts, from
`sendBatchToConversation` on: on a 2xx delivery the cursor advances to
`messages.length - 1` and the session file is overwritten; on failure the
exception skips the save. -/
def stopHookSend (sid : String) (transcript : List TranscriptMessage)
    (sendStatus : Nat) (conversationId : String) (st : SessFile) (fs : FileState) :
    OpResult :=
  if isOkStatus sendStatus then
    ⟨some conversationId, forwardedIndices transcript st.lastProcessedIndex,
      { fs with
        sessions := updFun fs.sessions sid
          (some { st with lastProcessedIndex := (transcript.length : Int) - 1 }) }⟩
  else ⟨some conversationId, [], fs⟩

/-- `getOrCreateConversation`: the conversation id from the loaded session
state, else from the conversations map (cached into the in-memory state),
else created fresh and saved to the map; a failed creation raises (`none`).
Returns the id, the updated in-memory session state, and the file state. -/
def getOrCreateConversation (sid fresh : String) (createStatus : Nat)
    (st : SessFile) (fs : FileState) : Option (String × SessFile × FileState) :=
  match st.conversationId with
  | some conversationId => some (conversationId, st, fs)
  | none =>
      match fs.convMap sid with
      | some conversationId =>
          some (conversationId, { st with conversationId := some conversationId }, fs)
      | none =>
          if isOkStatus createStatus then
            some (fresh, { st with conversationId := some fresh },
              { fs with convMap := updFun fs.convMap sid (some fresh) })
          else none

/-- `main` of send_messages_to_letta.ts: read the transcript, select the
events after the persisted cursor, resolve the conversation via
`getOrCreateConversation`, deliver, and only then persist the advanced
cursor. -/
def stopHookMain (sid : String) (transcript : List TranscriptMessage)
    (fresh : String) (createStatus sendStatus : Nat) (fs : FileState) : OpResult :=
  if transcript.isEmpty then ⟨none, [], fs⟩
  else
    let st := loadSyncState fs sid
    let newMessages := formatMessagesForLetta transcript st.lastProcessedIndex
    if newMessages.isEmpty then ⟨none, [], fs⟩
    else
      match getOrCreateConversation sid fresh createStatus st fs with
      | some (conversationId, st1, fs1) =>
          stopHookSend sid transcript sendStatus conversationId st1 fs1
      | none => ⟨none, [], fs⟩

def applyOp (fs : FileState) : HookOp → OpResult
  | .sessionStart sid fresh createStatus _ => sessionStartMain sid fresh createStatus fs
  | .stopHook sid transcript fresh createStatus sendStatus =>
      stopHookMain sid transcript fresh createStatus sendStatus fs

def runOps (fs : FileState) : List HookOp → FileState
  | [] => fs
  | op :: rest => runOps (applyOp fs op).state rest

/-- The per-invocation batches of delivered transcript indices belonging to
session `sid`, in run order. -/
def runForwardedFor (sid : String) : FileState → List HookOp → List (List Nat)
  | _, [] => []
  | fs, op :: rest =>
      let r := applyOp fs op
      (if op.sid = sid then r.forwarded else []) :: runForwardedFor sid r.state rest

/-- The conversation ids resolved for session `sid`, in run order. -/
def runResolvedFor (sid : String) : FileState → List HookOp → List String
  | _, [] => []
  | fs, op :: rest =>
      let r := applyOp fs op
      (if op.sid = sid then (r.resolvedConv).toList else []) ++ runResolvedFor sid r.state rest

/-- Two delivery batches share no transcript index. -/
def DisjointBatch (a b : List Nat) : Prop := ∀ x ∈ a, x ∉ b

/-- The claim C1 states: over a whole run, no transcript index of the session
is ever delivered twice. -/
def NoIndexResent (sid : String) (fs : FileState) (ops : List HookOp) : Prop :=
  List.Pairwise DisjointBatch (runForwardedFor sid fs ops)

/-- Consistency of a project state: whenever a session file records a
conversation id, the conversations map records the same id (every write path
of both hooks maintains this). -/
def ConvConsistent (fs : FileState) : Prop :=
  ∀ sid st c, fs.sessions sid = some st → st.conversationId = some c →
    fs.convMap sid = some c

end SyncMachine

namespace MemorySync

open JsSem

/-! ### The section regexes of `updateClaudeMd`

`updateClaudeMd` builds, for fixed literal tags, the pattern
`^START[\s\S]*?^END$` with flags `gm` and uses `test` + `replace`. We model
the matcher directly over character lists: a match starts at a line start
holding the start tag, and ends at the earliest following line start holding
the end tag at end-of-line (the lazy `[\s\S]*?`). `replace` locates every
match in the original string and substitutes the replacement with JS
`GetSubstitution` semantics for `$`-patterns. -/

/-- End-of-line assertion `$` (multiline): end of input or a newline next. -/
def eolAt : List Char → Bool
  | [] => true
  | c :: _ => c = '\n'

/-- The end tag matches here, followed by end-of-line. -/
def matchEndTag (endTag s : List Char) : Bool :=
  endTag.isPrefixOf s && eolAt (s.drop endTag.length)

/-- Offset of the first line start (given the flag for the current position)
where the end tag matches at end-of-line. -/
def findEnd (endTag : List Char) : List Char → Bool → Option Nat
  | [], ls => if ls && matchEndTag endTag [] then some 0 else none
  | c :: rest, ls =>
      if ls && matchEndTag endTag (c :: rest) then some 0
      else (findEnd endTag rest (c = '\n')).map (· + 1)

/-- Whether the position just after `tag` is a line start, given the flag
for the position where `tag` begins. -/
def lastIsNl (tag : List Char) (ls : Bool) : Bool :=
  match tag.getLast? with
  | some c => c = '\n'
  | none => ls

/-- Leftmost match `(start, stop)` of `^startTag[\s\S]*?^endTag$`, with `ls`
the line-start flag of the current position. The lazy quantifier makes the
match end at the earliest eligible end tag; if the start tag occurs but no
end tag follows, no later start can match either (ends are searched left to
right), so the whole search fails. -/
def firstMatch (startTag endTag : List Char) : List Char → Bool → Option (Nat × Nat)
  | [], ls =>
      if ls && startTag.isPrefixOf ([] : List Char) then
        match findEnd endTag (List.drop startTag.length []) (lastIsNl startTag ls) with
        | some q => some (0, startTag.length + q + endTag.length)
        | none => none
      else none
  | c :: rest, ls =>
      if ls && startTag.isPrefixOf (c :: rest) then
        match findEnd endTag ((c :: rest).drop startTag.length) (lastIsNl startTag ls) with
        | some q => some (0, startTag.length + q + endTag.length)
        | none => none
      else
        match firstMatch startTag endTag rest (c = '\n') with
        | some pe => some (pe.1 + 1, pe.2 + 1)
        | none => none

/-- JS `GetSubstitution` for a replacement string: `$$` is a dollar, `$&` the
matched text, a backtick-dollar the prefix of the original string before the
match, a quote-dollar the suffix after it; everything else (including `$1`,
our regexes have no capture groups) is literal. -/
def getSubstitution (matched pre post : List Char) : List Char → List Char
  | [] => []
  | [c] => [c]
  | c :: d :: rest =>
      if c = '$' then
        if d = '$' then '$' :: getSubstitution matched pre post rest
        else if d = '&' then matched ++ getSubstitution matched pre post rest
        else if d = Char.ofNat 96 then pre ++ getSubstitution matched pre post rest
        else if d = Char.ofNat 39 then post ++ getSubstitution matched pre post rest
        else c :: getSubstitution matched pre post (d :: rest)
      else c :: getSubstitution matched pre post (d :: rest)

/-- Line-start flag after a match, given the flag where it began. -/
def lsAfter (seg : List Char) (ls : Bool) : Bool :=
  match seg.getLast? with
  | some c => c = '\n'
  | none => ls

/-- Global `replace`: all matches are located in the original string, each
replaced by the expanded substitution. `pos` is the absolute position of `s`
inside `orig`. Matches of our patterns are nonempty, so fuel
`orig.length + 1` always suffices; the `e ≤ p` guard is unreachable for
nonempty tags. -/
def replaceGlobalAux (startTag endTag repl orig : List Char) :
    Nat → List Char → Nat → Bool → List Char
  | 0, s, _, _ => s
  | fuel + 1, s, pos, ls =>
      match firstMatch startTag endTag s ls with
      | none => s
      | some (p, e) =>
          if e ≤ p then s
          else
            let matched := (s.drop p).take (e - p)
            s.take p
              ++ getSubstitution matched (orig.take (pos + p)) (orig.drop (pos + e)) repl
              ++ replaceGlobalAux startTag endTag repl orig fuel (s.drop e) (pos + e)
                  (lsAfter matched ls)

def replaceGlobal (startTag endTag repl s : List Char) : List Char :=
  replaceGlobalAux startTag endTag repl s (s.length + 1) s 0 true

/-- One `test`-then-`replace`-or-append step of `updateClaudeMd` for one
tagged section. -/
def applySection (doc startTag endTag sect : List Char) : List Char :=
  match firstMatch startTag endTag doc true with
  | some _ => replaceGlobal startTag endTag sect doc
  | none => jsTrimEnd doc ++ ('\n' :: '\n' :: sect) ++ ['\n']

def LETTA_SECTION_START : String := "<letta>"
def LETTA_SECTION_END : String := "</letta>"
def LETTA_CONTEXT_START : String := "<letta_context>"
def LETTA_CONTEXT_END : String := "</letta_context>"
def LETTA_MEMORY_START : String := "<letta_memory_blocks>"
def LETTA_MEMORY_END : String := "</letta_memory_blocks>"
def LETTA_MESSAGE_START : String := "<letta_message>"
def LETTA_MESSAGE_END : String := "</letta_message>"

/-- The default template seeded when `.claude/CLAUDE.md` does not exist. -/
def CLAUDE_MD_TEMPLATE : String :=
  "# Project Context\n\n<!-- Letta agent memory is automatically synced below -->\n"

/-- `updateClaudeMd`: read the document (or seed the template), replace or
append the `<letta>` section, then the `<letta_message>` section, write back.
`existing` is the file content, `none` when the file does not exist. -/
def updateClaudeMd (existing : Option String) (lettaContent messageContent : String) :
    String :=
  let existingContent := (existing.getD CLAUDE_MD_TEMPLATE).toList
  let step1 := applySection existingContent LETTA_SECTION_START.toList
    LETTA_SECTION_END.toList lettaContent.toList
  let step2 := applySection step1 LETTA_MESSAGE_START.toList
    LETTA_MESSAGE_END.toList messageContent.toList
  step2.asString

end MemorySync

namespace MemorySync

/-- A memory block of the agent (`description`/`value` defensively read with
`|| ''` by the renderer, hence optional here). -/
structure MemoryBlock where
  label : String
  description : Option String := none
  value : Option String := none
deriving DecidableEq

/-- The `GET /agents/{id}?include=agent.blocks` payload. -/
structure Agent where
  id : String
  name : String
  description : Option String := none
  blocks : Option (List MemoryBlock) := none
deriving DecidableEq

/-- One entry of `GET /agents/{id}/messages`. -/
structure LettaMessage where
  id : String
  message_type : String
  content : Option String := none
  text : Option String := none
  date : Option String := none
deriving DecidableEq

structure LastMessageInfo where
  text : String
  date : Option String
deriving DecidableEq

def jsOrEmpty (o : Option String) : String := JsSem.jsOrD o ("")

/-- `str.replace(/c/g, t)` for a single character `c`. -/
def replaceCharAll (c : Char) (t : String) (s : String) : String :=
  String.join (s.toList.map (fun x => if x = c then t else String.mk [x]))

/-- `escapeXmlAttribute`: the source's chain of global replaces, in order. -/
def escapeXmlAttribute (s : String) : String :=
  replaceCharAll '\n' " "
    (replaceCharAll '>' "&gt;"
      (replaceCharAll '<' "&lt;"
        (replaceCharAll (Char.ofNat 39) "&apos;"
          (replaceCharAll '"' "&quot;"
            (replaceCharAll '&' "&amp;" s)))))

/-- `escapeXmlContent`: escapes only `&`, `<`, `>`. -/
def escapeXmlContent (s : String) : String :=
  replaceCharAll '>' "&gt;" (replaceCharAll '<' "&lt;" (replaceCharAll '&' "&amp;" s))

def LETTA_APP_BASE : String := "https://app.letta.com"

/-- `formatContextSection`. -/
def formatContextSection (agent : Agent) : String :=
  let agentUrl := LETTA_APP_BASE ++ "/agents/" ++ agent.id
  let agentName := JsSem.jsOrD (some agent.name) ("Unnamed Agent")
  let agentDesc := JsSem.jsOrD agent.description ("No description provided")
  LETTA_CONTEXT_START
    ++ "\n**Subconscious Layer (Letta Agent)**\n\nAgent: " ++ agentName
    ++ "\nDescription: " ++ agentDesc
    ++ "\nView: " ++ agentUrl
    ++ "\n\nThis agent maintains persistent memory across your sessions. It observes your conversations asynchronously and provides guidance below in <letta_message>. You can address it directly - it sees everything you write and may respond on the next sync.\n\nMemory blocks below are the agent\x27s long-term storage. Reference as needed.\n"
    ++ LETTA_CONTEXT_END

/-- One rendered memory block:
`<label description="...">` escaped-value `</label>`. -/
def formatBlock (block : MemoryBlock) : String :=
  "<" ++ block.label ++ " description=\""
    ++ escapeXmlAttribute (jsOrEmpty block.description) ++ "\">\n"
    ++ escapeXmlContent (jsOrEmpty block.value)
    ++ "\n</" ++ block.label ++ ">"

/-- `formatMemoryBlocksAsXml`. -/
def formatMemoryBlocksAsXml (agent : Agent) : String :=
  let contextSection := formatContextSection agent
  let renderWith (middle : String) : String :=
    LETTA_SECTION_START ++ "\n" ++ contextSection ++ "\n\n" ++ LETTA_MEMORY_START
      ++ "\n" ++ middle ++ "\n" ++ LETTA_MEMORY_END ++ "\n" ++ LETTA_SECTION_END
  match agent.blocks with
  | none => renderWith ("<!-- No memory blocks found -->")
  | some blocks =>
      if blocks.isEmpty then renderWith ("<!-- No memory blocks found -->")
      else renderWith (String.intercalate ("\n") (blocks.map formatBlock))

/-- `formatLastMessageAsXml`. -/
def formatLastMessageAsXml (agent : Agent) (messageInfo : Option LastMessageInfo) :
    String :=
  let agentName := JsSem.jsOrD (some agent.name) ("Unnamed Agent")
  match messageInfo with
  | none =>
      LETTA_MESSAGE_START ++ "\n<!-- No recent message from " ++ agentName ++ " -->\n"
        ++ LETTA_MESSAGE_END
  | some messageInfo =>
      let timestamp :=
        if JsSem.truthyS messageInfo.date then
          "**Timestamp**: " ++ messageInfo.date.getD ("")
        else "**Timestamp**: Unknown"
      LETTA_MESSAGE_START
        ++ "\n<!--\n  ASYNC MESSAGE FROM LETTA AGENT\n  \n  This is the most recent message from \""
        ++ agentName
        ++ "\".\n  \n  NOTE: This message may not be current or directly relevant to your current task.\n  The Letta agent processes Claude Code conversations asynchronously and may provide\n  commentary, guidance, or context that was generated in response to earlier interactions.\n  \n  "
        ++ timestamp ++ "\n-->\n\n" ++ messageInfo.text ++ "\n" ++ LETTA_MESSAGE_END

/-- The backward scan of `fetchLastAssistantMessage` over the reversed
message list: the first `assistant_message` with truthy string text. -/
def scanBackForAssistant : List LettaMessage → Option LastMessageInfo
  | [] => none
  | m :: rest =>
      if m.message_type = "assistant_message" then
        match JsSem.jsOrS m.content m.text with
        | some text =>
            if text.isEmpty then scanBackForAssistant rest
            else some { text := text, date := JsSem.jsOrS m.date none }
        | none => scanBackForAssistant rest
      else scanBackForAssistant rest

/-- `fetchLastAssistantMessage`: `null` on a non-success status (never
raises); otherwise the most recent assistant message with extractable text.
`status` and `messages` model the `GET /agents/{id}/messages` response. -/
def fetchLastAssistantMessage (status : Nat) (messages : List LettaMessage) :
    Option LastMessageInfo :=
  if !JsSem.isOkStatus status then none
  else scanBackForAssistant messages.reverse

/-- The inputs of one UserPromptSubmit sync invocation. -/
structure SyncInputs where
  agentStatus : Nat
  agent : Agent
  msgStatus : Nat
  recentMessages : List LettaMessage
  existingClaudeMd : Option String

/-- `main` of the memory-sync script: fetch agent and last message
(`fetchAgent` raises on a non-success status, caught as a non-blocking
error), render both sections, merge into CLAUDE.md. Returns the written
document. -/
def runMemorySync (inp : SyncInputs) : Except Nat String :=
  if !JsSem.isOkStatus inp.agentStatus then .error inp.agentStatus
  else
    let lastMessage := fetchLastAssistantMessage inp.msgStatus inp.recentMessages
    let lettaContent := formatMemoryBlocksAsXml inp.agent
    let messageContent := formatLastMessageAsXml inp.agent lastMessage
    .ok (updateClaudeMd inp.existingClaudeMd lettaContent messageContent)

end MemorySync

namespace AgentConfig

theorem hexRun_append (a res : List Char) (h : ∀ c ∈ a, isHexDigitI c = true) :
    hexRun a.length (a ++ res) = some res := by
  induction a with
  | nil => rfl
  | cons c cs ih =>
      simp only [List.length_cons, List.cons_append, hexRun, h c (by simp), if_true]
      exact ih (fun x hx => h x (by simp [hx]))

theorem hexRun_eq_some (n : Nat) (cs res : List Char) (h : hexRun n cs = some res) :
    ∃ a, cs = a ++ res ∧ a.length = n ∧ ∀ c ∈ a, isHexDigitI c = true := by
  induction n generalizing cs with
  | zero =>
      have : cs = res := Option.some.inj h
      exact ⟨[], by simp [this], rfl, by simp⟩
  | succ n ih =>
      cases cs with
      | nil => exact absurd h (by simp [hexRun])
      | cons c rest =>
          by_cases hc : isHexDigitI c = true
          · rw [hexRun, if_pos hc] at h
            obtain ⟨a, hrest, hlen, hall⟩ := ih rest h
            refine ⟨c :: a, by simp [hrest], by simp [hlen], fun x hx => ?_⟩
            rcases List.mem_cons.mp hx with h1 | h2
            · exact h1 ▸ hc
            · exact hall x h2
          · rw [hexRun, if_neg hc] at h
            exact absurd h (by simp)

theorem expectDash_eq_some (cs res : List Char) (h : expectDash cs = some res) :
    cs = '-' :: res := by
  unfold expectDash at h
  split at h
  · simp_all
  · simp at h

theorem agentIdTail_iff (cs : List Char) :
    agentIdTail cs = true ↔
      ∃ a b c d e : List Char,
        cs = a ++ '-' :: (b ++ '-' :: (c ++ '-' :: (d ++ '-' :: e))) ∧
        IsHexSeg 8 a ∧ IsHexSeg 4 b ∧ IsHexSeg 4 c ∧ IsHexSeg 4 d ∧ IsHexSeg 12 e := by
  constructor
  · intro h
    unfold agentIdTail at h
    rcases hmap : ((((((((((hexRun 8 cs).bind expectDash).bind (hexRun 4)).bind
        expectDash).bind (hexRun 4)).bind expectDash).bind (hexRun 4)).bind
        expectDash).bind (hexRun 12)).map List.isEmpty) with _ | bv
    · rw [hmap] at h; simp at h
    rw [hmap] at h
    simp only [Option.getD_some] at h
    subst h
    obtain ⟨cs9, hbind, hempty⟩ := Option.map_eq_some'.mp hmap
    have hcs9 : cs9 = [] := List.isEmpty_iff.mp hempty
    obtain ⟨cs8, hbind, h9⟩ := Option.bind_eq_some.mp hbind
    obtain ⟨cs7, hbind, h8⟩ := Option.bind_eq_some.mp hbind
    obtain ⟨cs6, hbind, h7⟩ := Option.bind_eq_some.mp hbind
    obtain ⟨cs5, hbind, h6⟩ := Option.bind_eq_some.mp hbind
    obtain ⟨cs4, hbind, h5⟩ := Option.bind_eq_some.mp hbind
    obtain ⟨cs3, hbind, h4⟩ := Option.bind_eq_some.mp hbind
    obtain ⟨cs2, hbind, h3⟩ := Option.bind_eq_some.mp hbind
    obtain ⟨cs1, h1, h2⟩ := Option.bind_eq_some.mp hbind
    obtain ⟨a, ha, halen, haall⟩ := hexRun_eq_some _ _ _ h1
    have hcs1 := expectDash_eq_some _ _ h2
    obtain ⟨b, hb, hblen, hball⟩ := hexRun_eq_some _ _ _ h3
    have hcs3 := expectDash_eq_some _ _ h4
    obtain ⟨c, hc, hclen, hcall⟩ := hexRun_eq_some _ _ _ h5
    have hcs5 := expectDash_eq_some _ _ h6
    obtain ⟨d, hd, hdlen, hdall⟩ := hexRun_eq_some _ _ _ h7
    have hcs7 := expectDash_eq_some _ _ h8
    obtain ⟨e, he, helen, heall⟩ := hexRun_eq_some _ _ _ h9
    refine ⟨a, b, c, d, e, ?_, ⟨halen, haall⟩, ⟨hblen, hball⟩, ⟨hclen, hcall⟩,
      ⟨hdlen, hdall⟩, ⟨helen, heall⟩⟩
    rw [ha, hcs1, hb, hcs3, hc, hcs5, hd, hcs7, he, hcs9, List.append_nil]
  · rintro ⟨a, b, c, d, e, hs, ⟨halen, haall⟩, ⟨hblen, hball⟩, ⟨hclen, hcall⟩,
      ⟨hdlen, hdall⟩, ⟨helen, heall⟩⟩
    subst hs
    have e1 : hexRun 8 (a ++ '-' :: (b ++ '-' :: (c ++ '-' :: (d ++ '-' :: e)))) =
        some ('-' :: (b ++ '-' :: (c ++ '-' :: (d ++ '-' :: e)))) :=
      halen ▸ hexRun_append a _ haall
    have e2 : hexRun 4 (b ++ '-' :: (c ++ '-' :: (d ++ '-' :: e))) =
        some ('-' :: (c ++ '-' :: (d ++ '-' :: e))) :=
      hblen ▸ hexRun_append b _ hball
    have e3 : hexRun 4 (c ++ '-' :: (d ++ '-' :: e)) = some ('-' :: (d ++ '-' :: e)) :=
      hclen ▸ hexRun_append c _ hcall
    have e4 : hexRun 4 (d ++ '-' :: e) = some ('-' :: e) :=
      hdlen ▸ hexRun_append d _ hdall
    have e5 : hexRun 12 e = some [] := by
      have h0 := hexRun_append e [] heall
      rw [List.append_nil] at h0
      rw [← helen]
      exact h0
    unfold agentIdTail
    rw [e1]
    simp only [Option.some_bind, expectDash]
    rw [e2]
    simp only [Option.some_bind, expectDash]
    rw [e3]
    simp only [Option.some_bind, expectDash]
    rw [e4]
    simp only [Option.some_bind, expectDash]
    rw [e5]
    rfl

theorem isValidAgentId_iff (s : String) : isValidAgentId s = true ↔ SpecAgentIdShape s := by
  constructor
  · intro h
    unfold isValidAgentId at h
    rw [Bool.and_eq_true] at h
    obtain ⟨hpref, htail⟩ := h
    obtain ⟨t, ht⟩ := List.isPrefixOf_iff_prefix.mp hpref
    obtain ⟨a, b, c, d, e, hdec, h8, hb, hc, hd, he⟩ := (agentIdTail_iff _).mp htail
    refine ⟨s.toList.take 6, a, b, c, d, e, ?_, ?_, h8, hb, hc, hd, he⟩
    · rw [← hdec]
      exact (List.take_append_drop 6 s.toList).symm
    · have h1 : (s.toList.map Char.toLower).take 6 = "agent-".toList := by
        rw [← ht]
        exact List.take_left' (by decide)
      rw [List.map_take]
      exact h1
  · rintro ⟨p, a, b, c, d, e, hs, hp, h8, hb, hc, hd, he⟩
    have hplen : p.length = 6 := by
      have h0 := congrArg List.length hp
      simpa using h0
    unfold isValidAgentId
    rw [Bool.and_eq_true]
    constructor
    · apply List.isPrefixOf_iff_prefix.mpr
      refine ⟨(a ++ '-' :: (b ++ '-' :: (c ++ '-' :: (d ++ '-' :: e)))).map Char.toLower, ?_⟩
      rw [← hp, ← List.map_append, ← hs]
    · have hdrop : s.toList.drop 6
          = a ++ '-' :: (b ++ '-' :: (c ++ '-' :: (d ++ '-' :: e))) := by
        rw [hs]
        exact List.drop_left' hplen
      rw [hdrop]
      exact (agentIdTail_iff _).mpr ⟨a, b, c, d, e, rfl, h8, hb, hc, hd, he⟩

/-- C6: `isValidAgentId` accepts exactly the strings of the form `agent-`
followed by hexadecimal segments of lengths 8-4-4-4-12, with the whole
pattern case-insensitive (the `i` flag also covers the literal prefix); in
particular the spec example, its full uppercase form and a mixed-case prefix
are accepted, and friendly names, missing prefixes, wrong segment lengths,
surrounding whitespace and embedded newlines are rejected. -/
theorem claim_C6 :
    (∀ s, isValidAgentId s = true ↔ SpecAgentIdShape s)
    ∧ isValidAgentId ("agent-a1b2c3d4-e5f6-7890-abcd-ef1234567890") = true
    ∧ isValidAgentId ("AGENT-A1B2C3D4-E5F6-7890-ABCD-EF1234567890") = true
    ∧ isValidAgentId ("Agent-a1b2c3d4-e5f6-7890-abcd-ef1234567890") = true
    ∧ isValidAgentId ("agent-A1B2C3D4-E5F6-7890-ABCD-EF1234567890") = true
    ∧ isValidAgentId ("Subconscious") = false
    ∧ isValidAgentId ("a1b2c3d4-e5f6-7890-abcd-ef1234567890") = false
    ∧ isValidAgentId ("agent-a1b2c3d4e5f6-7890-abcd-ef1234567890") = false
    ∧ isValidAgentId ("agent-a1b2c3d4-e5f6-7890-abcd") = false
    ∧ isValidAgentId (" agent-a1b2c3d4-e5f6-7890-abcd-ef1234567890 ") = false
    ∧ isValidAgentId ("agent-a1b2c3d4-e5f6-7890-abcd-ef1234567890\n") = false :=
  ⟨isValidAgentId_iff, by decide, by decide, by decide, by decide, by decide,
    by decide, by decide, by decide, by decide, by decide⟩

end AgentConfig

namespace AgentConfig

/-- C5: a malformed `LETTA_AGENT_ID` environment override makes `getAgentId`
throw, while a malformed persisted `config.agentId` is discarded and
resolution falls through to importing and persisting the bundled default
agent. -/
theorem claim_C5 :
    (∀ (envId : String) (config : Config) (freshImportId now : String),
      envId.isEmpty = false → isValidAgentId envId = false →
      getAgentId (some envId) config freshImportId now =
        .error (getInvalidAgentIdMessage envId))
    ∧ (∀ (config : Config) (savedId freshImportId now : String),
      config.agentId = some savedId → savedId.isEmpty = false →
      isValidAgentId savedId = false →
      getAgentId none config freshImportId now =
        .ok (importAndSaveAgent freshImportId now)) := by
  constructor
  · intro envId config freshImportId now hne hinv
    simp [getAgentId, JsSem.truthyS, hne, hinv]
  · intro config savedId freshImportId now hsaved hne hinv
    simp [getAgentId, JsSem.truthyS, hsaved, hne, hinv]

theorem claim_C5_witness :
    (("Subconscious").isEmpty = false ∧ isValidAgentId ("Subconscious") = false ∧
      getAgentId (some ("Subconscious")) {} ("agent-00000000-0000-0000-0000-000000000000")
          ("2026-01-28") =
        .error (getInvalidAgentIdMessage ("Subconscious")))
    ∧ ((Config.mk (some ("Memo")) none none).agentId = some ("Memo") ∧
      getAgentId none (Config.mk (some ("Memo")) none none)
          ("agent-00000000-0000-0000-0000-000000000000") ("2026-01-28") =
        .ok (importAndSaveAgent ("agent-00000000-0000-0000-0000-000000000000") ("2026-01-28"))) :=
  ⟨⟨by decide, by decide,
      claim_C5.1 ("Subconscious") {} ("agent-00000000-0000-0000-0000-000000000000")
        ("2026-01-28") (by decide) (by decide)⟩,
    ⟨rfl,
      claim_C5.2 (Config.mk (some ("Memo")) none none) ("Memo")
        ("agent-00000000-0000-0000-0000-000000000000") ("2026-01-28") rfl (by decide)
        (by decide)⟩⟩

theorem char_ofNat_toNat (n : Nat) (h : n.isValidChar) : (Char.ofNat n).toNat = n := by
  unfold Char.ofNat
  rw [dif_pos h]
  rfl

theorem toLower_toLower (c : Char) : Char.toLower (Char.toLower c) = Char.toLower c := by
  unfold Char.toLower
  by_cases h : c.toNat ≥ 65 ∧ c.toNat ≤ 90
  · rw [if_pos h]
    have hv : (Char.ofNat (c.toNat + 32)).toNat = c.toNat + 32 :=
      char_ofNat_toNat _ (by left; omega)
    rw [hv]
    rw [if_neg (by omega)]
  · rw [if_neg h, if_neg h]

theorem jsToLower_idem (s : String) :
    JsSem.jsToLower (JsSem.jsToLower s) = JsSem.jsToLower s := by
  simp only [JsSem.jsToLower, List.map_map]
  congr 1
  exact List.map_congr_left (fun a _ => toLower_toLower a)

theorem findModel_lower (models : List LettaModel) (modelHandle : String) :
    findModel models modelHandle = findModel models (JsSem.jsToLower modelHandle) := by
  unfold findModel
  rw [jsToLower_idem]

/-- C8: `buildLlmConfig` preserves every field of the current llm_config
except the model-identity fields; `handle` is set from the requested handle,
the lookup is case-insensitive, and the `LETTA_CONTEXT_WINDOW` override
replaces `context_window` exactly when it parses as a positive integer. -/
theorem claim_C8 (modelHandle : String) (models : List LettaModel)
    (currentConfig : Option LlmConfig) (envContextWindow : Option String) :
    (buildLlmConfig modelHandle models currentConfig envContextWindow).model_endpoint =
        (currentConfig.getD {}).model_endpoint
    ∧ (buildLlmConfig modelHandle models currentConfig envContextWindow).provider_category =
        (currentConfig.getD {}).provider_category
    ∧ (buildLlmConfig modelHandle models currentConfig envContextWindow).max_tokens =
        (currentConfig.getD {}).max_tokens
    ∧ (buildLlmConfig modelHandle models currentConfig envContextWindow).temperature =
        (currentConfig.getD {}).temperature
    ∧ (buildLlmConfig modelHandle models currentConfig envContextWindow).enable_reasoner =
        (currentConfig.getD {}).enable_reasoner
    ∧ (buildLlmConfig modelHandle models currentConfig envContextWindow).max_reasoning_tokens =
        (currentConfig.getD {}).max_reasoning_tokens
    ∧ (buildLlmConfig modelHandle models currentConfig envContextWindow).extra =
        (currentConfig.getD {}).extra
    ∧ (buildLlmConfig modelHandle models currentConfig envContextWindow).handle =
        some modelHandle
    ∧ (buildLlmConfig modelHandle models currentConfig envContextWindow).context_window =
        (match envContextWindow with
          | some s =>
              if s.isEmpty then (currentConfig.getD {}).context_window
              else
                match JsSem.jsParseInt10 s with
                | some parsed =>
                    if 0 < parsed then some parsed else (currentConfig.getD {}).context_window
                | none => (currentConfig.getD {}).context_window
          | none => (currentConfig.getD {}).context_window)
    ∧ findModel models modelHandle = findModel models (JsSem.jsToLower modelHandle) := by
  refine ⟨?_, ?_, ?_, ?_, ?_, ?_, ?_, ?_, ?_, findModel_lower models modelHandle⟩
  all_goals
    unfold buildLlmConfig
    cases envContextWindow with
    | none => simp [JsSem.truthyS]
    | some s =>
        by_cases hse : s.isEmpty
        · simp [JsSem.truthyS, hse]
        · simp only [JsSem.truthyS, hse, Bool.not_false, if_true, Option.bind_some,
            Option.some_bind]
          cases hp : JsSem.jsParseInt10 s with
          | none => simp [hp, hse]
          | some parsed =>
              by_cases hpos : 0 < parsed
              · simp [hp, hpos, hse]
              · simp [hp, hpos, hse]

end AgentConfig


namespace SendMessages

/-- C7: in turn selection, a tool-result body longer than 2000 characters is
forwarded as its first 2000 characters plus the truncation marker, a shorter
body is forwarded unchanged, and user/assistant entries carry their extracted
content verbatim (never truncated). -/
theorem claim_C7 :
    (∀ (msg : TranscriptMessage) (body : String),
      isUserMsg msg = false → isAssistantMsg msg = false → isToolResultMsg msg = true →
      toolBody msg = some body →
      formatMsg msg = some (("system"),
        "[Tool Result: " ++ toolNameDisplay msg ++ "]\n" ++
          (if 2000 < body.length then body.take 2000 ++ "... [truncated]" else body)))
    ∧ (∀ (msg : TranscriptMessage) (role text : String),
      formatMsg msg = some (role, text) → role = "user" ∨ role = "assistant" →
      extractContent msg = some text) := by
  constructor
  · intro msg body hu ha ht hb
    simp [formatMsg, hu, ha, ht, hb, truncateToolResult]
  · intro msg role text hm hrole
    unfold formatMsg at hm
    by_cases hu : isUserMsg msg = true
    · rw [if_pos hu] at hm
      cases hec : extractContent msg with
      | none => rw [hec] at hm; simp at hm
      | some c =>
          rw [hec] at hm
          by_cases hce : c.isEmpty
          · simp [hce] at hm
          · simp [hce] at hm
            exact congrArg some hm.2
    · rw [if_neg hu] at hm
      by_cases ha : isAssistantMsg msg = true
      · rw [if_pos ha] at hm
        cases hec : extractContent msg with
        | none => rw [hec] at hm; simp at hm
        | some c =>
            rw [hec] at hm
            by_cases hce : c.isEmpty
            · simp [hce] at hm
            · simp [hce] at hm
              exact congrArg some hm.2
      · rw [if_neg ha] at hm
        by_cases ht : isToolResultMsg msg = true
        · rw [if_pos ht] at hm
          cases htb : toolBody msg with
          | none => rw [htb] at hm; simp at hm
          | some b =>
              rw [htb] at hm
              simp at hm
              rcases hrole with h | h <;> rw [h] at hm <;> simp at hm
        · rw [if_neg ht] at hm
          simp at hm

/-- A transcript line whose `tool_result` is a non-string JSON value whose
stringified form has 2001 characters. -/
def c7msg : TranscriptMessage :=
  { type := some ("tool_result"),
    tool_result := some (.other true (String.mk (List.replicate 2001 'a'))) }

theorem claim_C7_witness :
    (isUserMsg c7msg = false ∧ isAssistantMsg c7msg = false ∧
      isToolResultMsg c7msg = true ∧
      toolBody c7msg = some (String.mk (List.replicate 2001 'a'))) ∧
    formatMsg c7msg = some (("system"),
      "[Tool Result: " ++ toolNameDisplay c7msg ++ "]\n" ++
        (if 2000 < (String.mk (List.replicate 2001 'a')).length then
          (String.mk (List.replicate 2001 'a')).take 2000 ++ "... [truncated]"
        else String.mk (List.replicate 2001 'a'))) :=
  ⟨⟨rfl, rfl, rfl, rfl⟩,
    claim_C7.1 c7msg (String.mk (List.replicate 2001 'a')) rfl rfl rfl rfl⟩

end SendMessages


namespace SyncMachine

theorem stopHookSend_fail (sid : String) (transcript : List SendMessages.TranscriptMessage)
    (sendStatus : Nat) (c : String) (st : SessFile) (fs : FileState)
    (hfail : JsSem.isOkStatus sendStatus = false) :
    stopHookSend sid transcript sendStatus c st fs = ⟨some c, [], fs⟩ := by
  unfold stopHookSend
  rw [hfail]
  rfl

theorem updFun_ne {α : Type} (f : String → Option α) (k : String) (v : Option α)
    (x : String) (h : ¬ x = k) : updFun f k v x = f x := if_neg h

theorem updFun_self {α : Type} (f : String → Option α) (k : String) (v : Option α) :
    updFun f k v k = v := if_pos rfl

/-- `getOrCreateConversation` never touches the session files, never changes
the cursor it was handed, and writes the conversations map only at its own
session id. -/
theorem gocc_frame (sid fresh : String) (cs : Nat) (st : SessFile) (fs : FileState)
    (c : String) (st1 : SessFile) (fs1 : FileState)
    (h : getOrCreateConversation sid fresh cs st fs = some (c, st1, fs1)) :
    fs1.sessions = fs.sessions ∧ st1.lastProcessedIndex = st.lastProcessedIndex ∧
    ∀ s2, ¬ s2 = sid → fs1.convMap s2 = fs.convMap s2 := by
  unfold getOrCreateConversation at h
  split at h
  · simp only [Option.some.injEq, Prod.mk.injEq] at h
    obtain ⟨hc, hst, hfs⟩ := h
    subst hst
    subst hfs
    exact ⟨rfl, rfl, fun _ _ => rfl⟩
  · split at h
    · simp only [Option.some.injEq, Prod.mk.injEq] at h
      obtain ⟨hc, hst, hfs⟩ := h
      subst hst
      subst hfs
      exact ⟨rfl, rfl, fun _ _ => rfl⟩
    · split at h
      · simp only [Option.some.injEq, Prod.mk.injEq] at h
        obtain ⟨hc, hst, hfs⟩ := h
        subst hst
        subst hfs
        exact ⟨rfl, rfl, fun s2 hs2 => updFun_ne fs.convMap sid _ s2 hs2⟩
      · exact absurd h (by simp)

/-- C4: when the delivery POST returns a non-success status the invocation
raises, never writes the per-session sync-state file, and the next cycle
selects exactly the same turns. -/
theorem claim_C4 (sid : String) (transcript : List SendMessages.TranscriptMessage)
    (fresh : String) (createStatus sendStatus : Nat) (fs : FileState)
    (hfail : JsSem.isOkStatus sendStatus = false) :
    (stopHookMain sid transcript fresh createStatus sendStatus fs).state.sessions sid =
        fs.sessions sid
    ∧ (stopHookMain sid transcript fresh createStatus sendStatus fs).forwarded = []
    ∧ SendMessages.formatMessagesForLetta transcript
        (loadSyncState (stopHookMain sid transcript fresh createStatus sendStatus fs).state
          sid).lastProcessedIndex =
      SendMessages.formatMessagesForLetta transcript
        (loadSyncState fs sid).lastProcessedIndex := by
  have hsend := fun c st fs1 => stopHookSend_fail sid transcript sendStatus c st fs1 hfail
  have hstate :
      (stopHookMain sid transcript fresh createStatus sendStatus fs).state.sessions sid =
        fs.sessions sid ∧
      (stopHookMain sid transcript fresh createStatus sendStatus fs).forwarded = [] := by
    by_cases h1 : transcript.isEmpty
    · simp [stopHookMain, h1]
    · by_cases h2 : (SendMessages.formatMessagesForLetta transcript
          (loadSyncState fs sid).lastProcessedIndex).isEmpty
      · simp [stopHookMain, h1, h2]
      · cases hg : getOrCreateConversation sid fresh createStatus (loadSyncState fs sid) fs with
        | none => simp [stopHookMain, h1, h2, hg]
        | some out =>
            obtain ⟨c, st1, fs1⟩ := out
            have hfr := gocc_frame sid fresh createStatus (loadSyncState fs sid) fs c st1 fs1 hg
            simp [stopHookMain, h1, h2, hg, hsend, hfr.1]
  refine ⟨hstate.1, hstate.2, ?_⟩
  unfold loadSyncState
  rw [hstate.1]

/-- A one-event transcript (one user message) for the witnesses. -/
def demoTranscript : List SendMessages.TranscriptMessage :=
  [{ type := some ("user"), content := some (.str ("hi")) }]

theorem claim_C4_witness :
    JsSem.isOkStatus 500 = false ∧
    ((stopHookMain ("s1") demoTranscript ("conv-1") 200 500 emptyFS).state.sessions ("s1") =
      emptyFS.sessions ("s1")
    ∧ (stopHookMain ("s1") demoTranscript ("conv-1") 200 500 emptyFS).forwarded = []
    ∧ SendMessages.formatMessagesForLetta demoTranscript
        (loadSyncState (stopHookMain ("s1") demoTranscript ("conv-1") 200 500 emptyFS).state
          ("s1")).lastProcessedIndex =
      SendMessages.formatMessagesForLetta demoTranscript
        (loadSyncState emptyFS ("s1")).lastProcessedIndex) :=
  ⟨by decide, claim_C4 ("s1") demoTranscript ("conv-1") 200 500 emptyFS (by decide)⟩

end SyncMachine

namespace MemorySync

/-- C9: a non-success status on the recent-messages GET makes
`fetchLastAssistantMessage` return null instead of raising, and the sync
still completes, writing the placeholder comment (containing
"No recent message") into the message section. -/
theorem claim_C9 (inp : SyncInputs)
    (hmsg : JsSem.isOkStatus inp.msgStatus = false)
    (hagent : JsSem.isOkStatus inp.agentStatus = true) :
    fetchLastAssistantMessage inp.msgStatus inp.recentMessages = none
    ∧ runMemorySync inp = .ok (updateClaudeMd inp.existingClaudeMd
        (formatMemoryBlocksAsXml inp.agent) (formatLastMessageAsXml inp.agent none))
    ∧ ("No recent message").toList <:+:
        (formatLastMessageAsXml inp.agent none).toList := by
  have hfetch : fetchLastAssistantMessage inp.msgStatus inp.recentMessages = none := by
    unfold fetchLastAssistantMessage
    rw [hmsg]
    rfl
  refine ⟨hfetch, ?_, ?_⟩
  · unfold runMemorySync
    rw [hagent, hfetch]
    rfl
  · refine ⟨("<letta_message>\n<!-- ").toList,
      (" from " ++ JsSem.jsOrD (some inp.agent.name) ("Unnamed Agent") ++ " -->\n" ++
        LETTA_MESSAGE_END).toList, ?_⟩
    show _ ++ _ ++ _ = _
    unfold formatLastMessageAsXml
    simp only [String.toList, String.data_append, ← List.append_assoc]
    congr 1

/-- Concrete sync inputs for the C9 witness: the agent GET succeeds, the
recent-messages GET fails with 500. -/
def c9inputs : SyncInputs :=
  { agentStatus := 200
    agent := { id := "agent-1", name := "Subconscious" }
    msgStatus := 500
    recentMessages := []
    existingClaudeMd := none }

theorem claim_C9_witness :
    (JsSem.isOkStatus c9inputs.msgStatus = false ∧
      JsSem.isOkStatus c9inputs.agentStatus = true) ∧
    (fetchLastAssistantMessage c9inputs.msgStatus c9inputs.recentMessages = none
    ∧ runMemorySync c9inputs = .ok (updateClaudeMd c9inputs.existingClaudeMd
        (formatMemoryBlocksAsXml c9inputs.agent) (formatLastMessageAsXml c9inputs.agent none))
    ∧ ("No recent message").toList <:+:
        (formatLastMessageAsXml c9inputs.agent none).toList) :=
  ⟨⟨by decide, by decide⟩, claim_C9 c9inputs (by decide) (by decide)⟩

end MemorySync

namespace SyncMachine

/-- The persisted cursor of a session. -/
def cursorOf (fs : FileState) (sid : String) : Int :=
  (loadSyncState fs sid).lastProcessedIndex

/-- Whether an op is the SessionStart hook of this session. -/
def isSessionStartFor (sid : String) : HookOp → Bool
  | .sessionStart s _ _ _ => s = sid
  | _ => false

theorem applyOp_sessionStart (fs : FileState) (s fresh : String) (cs ss : Nat) :
    applyOp fs (.sessionStart s fresh cs ss) = sessionStartMain s fresh cs fs := rfl

theorem applyOp_stopHook (fs : FileState) (s : String)
    (t : List SendMessages.TranscriptMessage) (fresh : String) (cs ss : Nat) :
    applyOp fs (.stopHook s t fresh cs ss) = stopHookMain s t fresh cs ss fs := rfl

theorem loadSyncState_write (sess : String → Option SessFile) (m : String → Option String)
    (s : String) (v : SessFile) :
    loadSyncState ⟨updFun sess s (some v), m⟩ s = v := by
  simp [loadSyncState, updFun_self]

theorem mem_forwardedIndices (t : List SendMessages.TranscriptMessage) (c : Int) (x : Nat)
    (hx : x ∈ SendMessages.forwardedIndices t c) : c < (x : Int) ∧ x < t.length := by
  unfold SendMessages.forwardedIndices at hx
  obtain ⟨hr, hf⟩ := List.mem_filter.mp hx
  rw [Bool.and_eq_true] at hf
  exact ⟨of_decide_eq_true hf.1, List.mem_range.mp hr⟩

theorem formatMessages_ne_nil_bound (t : List SendMessages.TranscriptMessage) (c : Int)
    (h : ¬ (SendMessages.formatMessagesForLetta t c).isEmpty = true) :
    c < (t.length : Int) := by
  unfold SendMessages.formatMessagesForLetta at h
  rw [List.isEmpty_iff] at h
  have hdrop : t.drop (c + 1).toNat ≠ [] := by
    intro hnil
    rw [hnil] at h
    exact h rfl
  have hlt : (c + 1).toNat < t.length := by
    by_contra hge
    exact hdrop (List.drop_eq_nil_of_le (by omega))
  have hself : c + 1 ≤ ((c + 1).toNat : Int) := Int.self_le_toNat _
  omega

/-- Outcome analysis of one Stop-hook invocation for its own session. -/
theorem stopHookMain_spec (s : String) (t : List SendMessages.TranscriptMessage)
    (fresh : String) (cs ss : Nat) (fs : FileState) :
    ((stopHookMain s t fresh cs ss fs).forwarded = [] ∧
      (stopHookMain s t fresh cs ss fs).state.sessions s = fs.sessions s) ∨
    ((stopHookMain s t fresh cs ss fs).forwarded =
        SendMessages.forwardedIndices t (cursorOf fs s) ∧
      cursorOf (stopHookMain s t fresh cs ss fs).state s = (t.length : Int) - 1 ∧
      ¬ (SendMessages.formatMessagesForLetta t (cursorOf fs s)).isEmpty = true) := by
  by_cases h1 : t.isEmpty
  · left
    simp [stopHookMain, h1]
  · by_cases h2 : (SendMessages.formatMessagesForLetta t
        (loadSyncState fs s).lastProcessedIndex).isEmpty
    · left
      simp [stopHookMain, h1, h2]
    · cases hg : getOrCreateConversation s fresh cs (loadSyncState fs s) fs with
      | none =>
          left
          simp [stopHookMain, h1, h2, hg]
      | some out =>
          obtain ⟨c, st1, fs1⟩ := out
          have hfr := gocc_frame s fresh cs (loadSyncState fs s) fs c st1 fs1 hg
          by_cases hok : JsSem.isOkStatus ss
          · right
            refine ⟨?_, ?_, h2⟩
            · simp [stopHookMain, h1, h2, hg, stopHookSend, hok, cursorOf, hfr.2.1]
            · simp [stopHookMain, h1, h2, hg, stopHookSend, hok, cursorOf,
                loadSyncState_write]
          · left
            have hf := Bool.eq_false_iff.mpr hok
            simp [stopHookMain, h1, h2, hg, stopHookSend_fail s t ss c st1 fs1 hf, hfr.1]

/-- Any invocation of another session leaves this session file untouched. -/
theorem applyOp_sessions_other (sid : String) (fs : FileState) (op : HookOp)
    (hsid : ¬ op.sid = sid) :
    (applyOp fs op).state.sessions sid = fs.sessions sid := by
  cases op with
  | sessionStart s fresh cs ss =>
      have hs : ¬ sid = s := fun h => hsid (by simp [HookOp.sid, h])
      rw [applyOp_sessionStart]
      cases hm : fs.convMap s with
      | some c => simp [sessionStartMain, saveSessionState, hm, updFun_ne _ _ _ _ hs]
      | none =>
          by_cases hc : JsSem.isOkStatus cs
          · simp [sessionStartMain, saveSessionState, hm, hc, updFun_ne _ _ _ _ hs]
          · simp [sessionStartMain, hm, hc]
  | stopHook s t fresh cs ss =>
      have hs : ¬ sid = s := fun h => hsid (by simp [HookOp.sid, h])
      rw [applyOp_stopHook]
      by_cases h1 : t.isEmpty
      · simp [stopHookMain, h1]
      · by_cases h2 : (SendMessages.formatMessagesForLetta t
            (loadSyncState fs s).lastProcessedIndex).isEmpty
        · simp [stopHookMain, h1, h2]
        · cases hg : getOrCreateConversation s fresh cs (loadSyncState fs s) fs with
          | none => simp [stopHookMain, h1, h2, hg]
          | some out =>
              obtain ⟨c, st1, fs1⟩ := out
              have hfr := gocc_frame s fresh cs (loadSyncState fs s) fs c st1 fs1 hg
              by_cases hok : JsSem.isOkStatus ss
              · simp [stopHookMain, h1, h2, hg, stopHookSend, hok,
                  updFun_ne _ _ _ _ hs, hfr.1]
              · have hf := Bool.eq_false_iff.mpr hok
                simp [stopHookMain, h1, h2, hg,
                  stopHookSend_fail s t ss c st1 fs1 hf, hfr.1]

theorem sessionStart_forwarded (s fresh : String) (cs ss : Nat) (fs : FileState) :
    (applyOp fs (.sessionStart s fresh cs ss)).forwarded = [] := by
  rw [applyOp_sessionStart]
  cases hm : fs.convMap s with
  | some c => simp [sessionStartMain, hm]
  | none =>
      by_cases hc : JsSem.isOkStatus cs
      · simp [sessionStartMain, hm, hc]
      · simp [sessionStartMain, hm, hc]

/-- Cursor monotonicity for one op that is not a SessionStart of this
session. -/
theorem cursor_mono_op (sid : String) (fs : FileState) (op : HookOp)
    (hns : isSessionStartFor sid op = false) :
    cursorOf fs sid ≤ cursorOf (applyOp fs op).state sid := by
  by_cases hsid : op.sid = sid
  · cases op with
    | sessionStart s fresh cs ss =>
        have hne : ¬ s = sid := by simpa [isSessionStartFor] using hns
        exact absurd (by simpa [HookOp.sid] using hsid) hne
    | stopHook s t fresh cs ss =>
        have hs : s = sid := by simpa [HookOp.sid] using hsid
        subst hs
        rw [applyOp_stopHook]
        rcases stopHookMain_spec s t fresh cs ss fs with ⟨hfwd, hsess⟩ | ⟨hfwd, hcur, hne⟩
        · have heq : cursorOf (stopHookMain s t fresh cs ss fs).state s = cursorOf fs s := by
            unfold cursorOf loadSyncState
            rw [hsess]
          omega
        · have hlt := formatMessages_ne_nil_bound t (cursorOf fs s) hne
          omega
  · have hsess := applyOp_sessions_other sid fs op hsid
    have heq : cursorOf (applyOp fs op).state sid = cursorOf fs sid := by
      unfold cursorOf loadSyncState
      rw [hsess]
    omega

/-- Delivered indices of an op of this session lie strictly above the cursor
before the op and at or below the cursor after it. -/
theorem forwarded_bounds (sid : String) (fs : FileState) (op : HookOp)
    (hsid : op.sid = sid) (x : Nat) (hx : x ∈ (applyOp fs op).forwarded) :
    cursorOf fs sid < (x : Int) ∧ (x : Int) ≤ cursorOf (applyOp fs op).state sid := by
  cases op with
  | sessionStart s fresh cs ss =>
      rw [sessionStart_forwarded] at hx
      exact absurd hx (List.not_mem_nil x)
  | stopHook s t fresh cs ss =>
      have hs : s = sid := by simpa [HookOp.sid] using hsid
      subst hs
      rw [applyOp_stopHook] at hx ⊢
      rcases stopHookMain_spec s t fresh cs ss fs with ⟨hfwd, hsess⟩ | ⟨hfwd, hcur, hne⟩
      · rw [hfwd] at hx
        exact absurd hx (List.not_mem_nil x)
      · rw [hfwd] at hx
        obtain ⟨hgt, hlen⟩ := mem_forwardedIndices t (cursorOf fs s) x hx
        refine ⟨hgt, ?_⟩
        rw [hcur]
        omega

end SyncMachine

namespace SyncMachine

/-- No op in the run is the SessionStart hook of this session. -/
def noSessionStartFor (sid : String) (ops : List HookOp) : Bool :=
  ops.all (fun op => !isSessionStartFor sid op)

theorem noSessionStartFor_head (sid : String) (op : HookOp) (rest : List HookOp)
    (h : noSessionStartFor sid (op :: rest) = true) :
    isSessionStartFor sid op = false ∧ noSessionStartFor sid rest = true := by
  unfold noSessionStartFor at h ⊢
  rw [List.all_cons, Bool.and_eq_true] at h
  exact ⟨by simpa using h.1, h.2⟩

theorem later_forwarded_gt (sid : String) (ops : List HookOp) :
    ∀ (fs : FileState), noSessionStartFor sid ops = true →
    ∀ batch ∈ runForwardedFor sid fs ops, ∀ x ∈ batch, cursorOf fs sid < (x : Int) := by
  induction ops with
  | nil =>
      intro fs _ batch hbatch
      simp [runForwardedFor] at hbatch
  | cons op rest ih =>
      intro fs hns batch hbatch x hx
      obtain ⟨hh, ht⟩ := noSessionStartFor_head sid op rest hns
      rw [runForwardedFor] at hbatch
      rcases List.mem_cons.mp hbatch with heq | hmem
      · subst heq
        by_cases hsid : op.sid = sid
        · rw [if_pos hsid] at hx
          exact (forwarded_bounds sid fs op hsid x hx).1
        · rw [if_neg hsid] at hx
          exact absurd hx (List.not_mem_nil x)
      · have hlater := ih (applyOp fs op).state ht batch hmem x hx
        have hmono := cursor_mono_op sid fs op hh
        omega

/-- C1 (amended): over any run of hook invocations containing no
SessionStart of the session, the per-invocation delivery batches for that
session are pairwise disjoint — no transcript index is ever forwarded
twice. -/
theorem claim_C1 (sid : String) (fs : FileState) (ops : List HookOp)
    (hns : noSessionStartFor sid ops = true) :
    NoIndexResent sid fs ops := by
  unfold NoIndexResent
  induction ops generalizing fs with
  | nil => simp [runForwardedFor]
  | cons op rest ih =>
      obtain ⟨hh, ht⟩ := noSessionStartFor_head sid op rest hns
      rw [runForwardedFor, List.pairwise_cons]
      constructor
      · intro b hb x hx
        by_cases hsid : op.sid = sid
        · rw [if_pos hsid] at hx
          have hub := (forwarded_bounds sid fs op hsid x hx).2
          intro hxb
          have hgt := later_forwarded_gt sid rest (applyOp fs op).state ht b hb x hxb
          omega
        · rw [if_neg hsid] at hx
          exact absurd hx (List.not_mem_nil x)
      · exact ih (applyOp fs op).state ht

instance (a b : List Nat) : Decidable (DisjointBatch a b) :=
  inferInstanceAs (Decidable (∀ x ∈ a, x ∉ b))

instance (sid : String) (fs : FileState) (ops : List HookOp) :
    Decidable (NoIndexResent sid fs ops) :=
  inferInstanceAs (Decidable (List.Pairwise DisjointBatch (runForwardedFor sid fs ops)))

/-- The run refuting C1 as stated: deliver, SessionStart (same session),
deliver again. -/
def c1run : List HookOp :=
  [.stopHook ("s1") demoTranscript ("conv-1") 200 200,
   .sessionStart ("s1") ("conv-2") 200 200,
   .stopHook ("s1") demoTranscript ("conv-3") 200 200]

theorem claim_C1_counterexample : ¬ NoIndexResent ("s1") emptyFS c1run := by
  decide

def c1okRun : List HookOp :=
  [.stopHook ("s1") demoTranscript ("conv-1") 200 200,
   .stopHook ("s1") demoTranscript ("conv-3") 200 200]

theorem claim_C1_witness :
    noSessionStartFor ("s1") c1okRun = true ∧ NoIndexResent ("s1") emptyFS c1okRun :=
  ⟨by decide, claim_C1 ("s1") emptyFS c1okRun (by decide)⟩

end SyncMachine

namespace SyncMachine

/-- A resolved conversation id is recorded in the map, was already there or
absent, and is cached into the in-memory session state. -/
theorem gocc_conv (sid fresh : String) (cs : Nat) (fs : FileState) (c : String)
    (st1 : SessFile) (fs1 : FileState) (hcons : ConvConsistent fs)
    (h : getOrCreateConversation sid fresh cs (loadSyncState fs sid) fs =
      some (c, st1, fs1)) :
    fs1.convMap sid = some c ∧ st1.conversationId = some c ∧
    (fs.convMap sid = some c ∨ fs.convMap sid = none) := by
  unfold getOrCreateConversation at h
  split at h
  · rename_i cid heq
    simp only [Option.some.injEq, Prod.mk.injEq] at h
    obtain ⟨hc, hst, hfs⟩ := h
    subst hc
    subst hst
    subst hfs
    have hmap : fs.convMap sid = some cid := by
      cases hs : fs.sessions sid with
      | none =>
          rw [loadSyncState, hs] at heq
          exact absurd heq (by simp)
      | some stf =>
          have : stf.conversationId = some cid := by
            rw [loadSyncState, hs] at heq
            simpa using heq
          exact hcons sid stf cid hs this
    exact ⟨hmap, heq, Or.inl hmap⟩
  · rename_i heq0
    split at h
    · rename_i cid heq
      simp only [Option.some.injEq, Prod.mk.injEq] at h
      obtain ⟨hc, hst, hfs⟩ := h
      subst hc
      subst hst
      subst hfs
      exact ⟨heq, rfl, Or.inl heq⟩
    · rename_i heq
      split at h
      · simp only [Option.some.injEq, Prod.mk.injEq] at h
        obtain ⟨hc, hst, hfs⟩ := h
        subst hc
        subst hst
        subst hfs
        exact ⟨updFun_self .., rfl, Or.inr heq⟩
      · exact absurd h (by simp)

/-- An op of another session never changes this session's map entry; an op of
this session only ever writes the id it resolved there, and only when the
entry was absent. -/
theorem convMap_stable (sid : String) (c0 : String) (fs : FileState) (op : HookOp)
    (hmap : fs.convMap sid = some c0) :
    (applyOp fs op).state.convMap sid = some c0 := by
  cases op with
  | sessionStart s fresh cs ss =>
      rw [applyOp_sessionStart]
      cases hm : fs.convMap s with
      | some c => simpa [sessionStartMain, saveSessionState, hm] using hmap
      | none =>
          by_cases hc : JsSem.isOkStatus cs
          · have hne : ¬ sid = s := fun h => by
              rw [h] at hmap
              rw [hmap] at hm
              exact Option.noConfusion hm
            simpa [sessionStartMain, saveSessionState, hm, hc, updFun_ne _ _ _ _ hne]
              using hmap
          · simpa [sessionStartMain, hm, hc] using hmap
  | stopHook s t fresh cs ss =>
      rw [applyOp_stopHook]
      by_cases h1 : t.isEmpty
      · simpa [stopHookMain, h1] using hmap
      · by_cases h2 : (SendMessages.formatMessagesForLetta t
            (loadSyncState fs s).lastProcessedIndex).isEmpty
        · simpa [stopHookMain, h1, h2] using hmap
        · cases hg : getOrCreateConversation s fresh cs (loadSyncState fs s) fs with
          | none => simpa [stopHookMain, h1, h2, hg] using hmap
          | some out =>
              obtain ⟨c, st1, fs1⟩ := out
              have hmap1 : fs1.convMap sid = some c0 := by
                by_cases hss : sid = s
                · subst hss
                  unfold getOrCreateConversation at hg
                  split at hg
                  · simp only [Option.some.injEq, Prod.mk.injEq] at hg
                    rw [← hg.2.2]
                    exact hmap
                  · split at hg
                    · simp only [Option.some.injEq, Prod.mk.injEq] at hg
                      rw [← hg.2.2]
                      exact hmap
                    · split at hg
                      · rename_i heq _
                        rw [hmap] at heq
                        exact absurd heq (by simp)
                      · exact absurd hg (by simp)
                · have hfr := gocc_frame s fresh cs (loadSyncState fs s) fs c st1 fs1 hg
                  rw [hfr.2.2 sid hss]
                  exact hmap
              by_cases hok : JsSem.isOkStatus ss
              · simpa [stopHookMain, h1, h2, hg, stopHookSend, hok] using hmap1
              · have hf := Bool.eq_false_iff.mpr hok
                simpa [stopHookMain, h1, h2, hg, stopHookSend_fail s t ss c st1 fs1 hf]
                  using hmap1

end SyncMachine

namespace SyncMachine

/-- Every invocation preserves the session-file/map consistency invariant. -/
theorem convConsistent_applyOp (fs : FileState) (op : HookOp) (hcons : ConvConsistent fs) :
    ConvConsistent (applyOp fs op).state := by
  cases op with
  | sessionStart s fresh cs ss =>
      rw [applyOp_sessionStart]
      cases hm : fs.convMap s with
      | some c =>
          have hst : (sessionStartMain s fresh cs fs).state =
              ⟨updFun fs.sessions s (some ⟨-1, some c⟩), fs.convMap⟩ := by
            simp [sessionStartMain, saveSessionState, hm]
          rw [hst]
          intro sid stf c2 hsess hconv
          simp only at hsess ⊢
          by_cases hsid : sid = s
          · subst hsid
            rw [updFun_self] at hsess
            have : stf = ⟨-1, some c⟩ := (Option.some.inj hsess).symm
            rw [this] at hconv
            have : c = c2 := Option.some.inj hconv
            subst this
            exact hm
          · rw [updFun_ne _ _ _ _ hsid] at hsess
            exact hcons sid stf c2 hsess hconv
      | none =>
          by_cases hc : JsSem.isOkStatus cs
          · have hst : (sessionStartMain s fresh cs fs).state =
                ⟨updFun fs.sessions s (some ⟨-1, some fresh⟩),
                  updFun fs.convMap s (some fresh)⟩ := by
              simp [sessionStartMain, saveSessionState, hm, hc]
            rw [hst]
            intro sid stf c2 hsess hconv
            simp only at hsess ⊢
            by_cases hsid : sid = s
            · subst hsid
              rw [updFun_self] at hsess
              have : stf = ⟨-1, some fresh⟩ := (Option.some.inj hsess).symm
              rw [this] at hconv
              have : fresh = c2 := Option.some.inj hconv
              subst this
              exact updFun_self ..
            · rw [updFun_ne _ _ _ _ hsid] at hsess
              rw [updFun_ne _ _ _ _ hsid]
              exact hcons sid stf c2 hsess hconv
          · have hst : (sessionStartMain s fresh cs fs).state = fs := by
              simp [sessionStartMain, hm, hc]
            rw [hst]
            exact hcons
  | stopHook s t fresh cs ss =>
      rw [applyOp_stopHook]
      by_cases h1 : t.isEmpty
      · have : (stopHookMain s t fresh cs ss fs).state = fs := by simp [stopHookMain, h1]
        rw [this]
        exact hcons
      · by_cases h2 : (SendMessages.formatMessagesForLetta t
            (loadSyncState fs s).lastProcessedIndex).isEmpty
        · have : (stopHookMain s t fresh cs ss fs).state = fs := by
            simp [stopHookMain, h1, h2]
          rw [this]
          exact hcons
        · cases hg : getOrCreateConversation s fresh cs (loadSyncState fs s) fs with
          | none =>
              have : (stopHookMain s t fresh cs ss fs).state = fs := by
                simp [stopHookMain, h1, h2, hg]
              rw [this]
              exact hcons
          | some out =>
              obtain ⟨c, st1, fs1⟩ := out
              have hfr := gocc_frame s fresh cs (loadSyncState fs s) fs c st1 fs1 hg
              have hcv := gocc_conv s fresh cs fs c st1 fs1 hcons hg
              have hcons1 : ConvConsistent fs1 := by
                intro sid stf c2 hsess hconv
                rw [hfr.1] at hsess
                by_cases hsid : sid = s
                · subst hsid
                  have hmap2 := hcons sid stf c2 hsess hconv
                  rcases hcv.2.2 with hsome | hnone
                  · rw [hmap2] at hsome
                    rw [hcv.1, hsome]
                  · rw [hmap2] at hnone
                    exact Option.noConfusion hnone
                · rw [hfr.2.2 sid hsid]
                  exact hcons sid stf c2 hsess hconv
              by_cases hok : JsSem.isOkStatus ss
              · have hst : (stopHookMain s t fresh cs ss fs).state =
                    ⟨updFun fs1.sessions s
                      (some ⟨(t.length : Int) - 1, st1.conversationId⟩), fs1.convMap⟩ := by
                  simp [stopHookMain, h1, h2, hg, stopHookSend, hok]
                rw [hst]
                intro sid stf c2 hsess hconv
                simp only at hsess ⊢
                by_cases hsid : sid = s
                · subst hsid
                  rw [updFun_self] at hsess
                  have : stf = ⟨(t.length : Int) - 1, st1.conversationId⟩ :=
                    (Option.some.inj hsess).symm
                  rw [this] at hconv
                  have hc2 : st1.conversationId = some c2 := hconv
                  rw [hcv.2.1] at hc2
                  have : c = c2 := Option.some.inj hc2
                  subst this
                  exact hcv.1
                · rw [updFun_ne _ _ _ _ hsid] at hsess
                  exact hcons1 sid stf c2 hsess hconv
              · have hf := Bool.eq_false_iff.mpr hok
                have hst : (stopHookMain s t fresh cs ss fs).state = fs1 := by
                  simp [stopHookMain, h1, h2, hg, stopHookSend_fail s t ss c st1 fs1 hf]
                rw [hst]
                exact hcons1

/-- What a resolution of this session's op implies: the id is recorded in the
map afterwards, and beforehand the map either already held it or was empty. -/
theorem resolved_spec (sid : String) (fs : FileState) (op : HookOp)
    (hcons : ConvConsistent fs) (hsid : op.sid = sid) (c : String)
    (hres : (applyOp fs op).resolvedConv = some c) :
    (applyOp fs op).state.convMap sid = some c ∧
    (fs.convMap sid = some c ∨ fs.convMap sid = none) := by
  cases op with
  | sessionStart s fresh cs ss =>
      have hs : s = sid := by simpa [HookOp.sid] using hsid
      subst hs
      rw [applyOp_sessionStart] at hres ⊢
      cases hm : fs.convMap s with
      | some c0 =>
          have h0 : (sessionStartMain s fresh cs fs).resolvedConv = some c0 := by
            simp [sessionStartMain, hm]
          rw [h0] at hres
          have : c0 = c := Option.some.inj hres
          subst this
          have : (sessionStartMain s fresh cs fs).state.convMap = fs.convMap := by
            simp [sessionStartMain, saveSessionState, hm]
          rw [this]
          exact ⟨hm, Or.inl rfl⟩
      | none =>
          by_cases hc : JsSem.isOkStatus cs
          · have h0 : (sessionStartMain s fresh cs fs).resolvedConv = some fresh := by
              simp [sessionStartMain, hm, hc]
            rw [h0] at hres
            have : fresh = c := Option.some.inj hres
            subst this
            have : (sessionStartMain s fresh cs fs).state.convMap =
                updFun fs.convMap s (some fresh) := by
              simp [sessionStartMain, saveSessionState, hm, hc]
            rw [this, updFun_self]
            exact ⟨rfl, Or.inr rfl⟩
          · have h0 : (sessionStartMain s fresh cs fs).resolvedConv = none := by
              simp [sessionStartMain, hm, hc]
            rw [h0] at hres
            exact absurd hres (by simp)
  | stopHook s t fresh cs ss =>
      have hs : s = sid := by simpa [HookOp.sid] using hsid
      subst hs
      rw [applyOp_stopHook] at hres ⊢
      by_cases h1 : t.isEmpty
      · rw [show (stopHookMain s t fresh cs ss fs).resolvedConv = none by
          simp [stopHookMain, h1]] at hres
        exact absurd hres (by simp)
      · by_cases h2 : (SendMessages.formatMessagesForLetta t
            (loadSyncState fs s).lastProcessedIndex).isEmpty
        · rw [show (stopHookMain s t fresh cs ss fs).resolvedConv = none by
            simp [stopHookMain, h1, h2]] at hres
          exact absurd hres (by simp)
        · cases hg : getOrCreateConversation s fresh cs (loadSyncState fs s) fs with
          | none =>
              rw [show (stopHookMain s t fresh cs ss fs).resolvedConv = none by
                simp [stopHookMain, h1, h2, hg]] at hres
              exact absurd hres (by simp)
          | some out =>
              obtain ⟨c1, st1, fs1⟩ := out
              have hcv := gocc_conv s fresh cs fs c1 st1 fs1 hcons hg
              by_cases hok : JsSem.isOkStatus ss
              · have h0 : (stopHookMain s t fresh cs ss fs).resolvedConv = some c1 := by
                  simp [stopHookMain, h1, h2, hg, stopHookSend, hok]
                rw [h0] at hres
                have : c1 = c := Option.some.inj hres
                subst this
                have : (stopHookMain s t fresh cs ss fs).state.convMap = fs1.convMap := by
                  simp [stopHookMain, h1, h2, hg, stopHookSend, hok]
                rw [this]
                exact ⟨hcv.1, hcv.2.2⟩
              · have hf := Bool.eq_false_iff.mpr hok
                have h0 : (stopHookMain s t fresh cs ss fs).resolvedConv = some c1 := by
                  simp [stopHookMain, h1, h2, hg, stopHookSend_fail s t ss c1 st1 fs1 hf]
                rw [h0] at hres
                have : c1 = c := Option.some.inj hres
                subst this
                have : (stopHookMain s t fresh cs ss fs).state.convMap = fs1.convMap := by
                  simp [stopHookMain, h1, h2, hg, stopHookSend_fail s t ss c1 st1 fs1 hf]
                rw [this]
                exact ⟨hcv.1, hcv.2.2⟩

end SyncMachine

namespace SyncMachine

/-- Once the map binds the session, every later resolution returns that id. -/
theorem all_resolved_eq (sid c0 : String) (ops : List HookOp) :
    ∀ (fs : FileState), ConvConsistent fs → fs.convMap sid = some c0 →
    ∀ x ∈ runResolvedFor sid fs ops, x = c0 := by
  induction ops with
  | nil =>
      intro fs _ _ x hx
      simp [runResolvedFor] at hx
  | cons op rest ih =>
      intro fs hcons hmap x hx
      rw [runResolvedFor] at hx
      rcases List.mem_append.mp hx with hhead | htail
      · by_cases hsid : op.sid = sid
        · rw [if_pos hsid] at hhead
          cases hres : (applyOp fs op).resolvedConv with
          | none => rw [hres] at hhead; exact absurd hhead (by simp)
          | some c =>
              rw [hres] at hhead
              have hx2 : x = c := by simpa using hhead
              rcases (resolved_spec sid fs op hcons hsid c hres).2 with hsome | hnone
              · rw [hmap] at hsome
                exact hx2.trans (Option.some.inj hsome).symm
              · rw [hmap] at hnone
                exact Option.noConfusion hnone
        · rw [if_neg hsid] at hhead
          exact absurd hhead (by simp)
      · exact ih (applyOp fs op).state (convConsistent_applyOp fs op hcons)
          (convMap_stable sid c0 fs op hmap) x htail

/-- C2: within one project state satisfying the session-file/map consistency
invariant, all conversation ids ever resolved for one session across any run
of hook invocations are identical — an existing binding is reused, never
replaced. -/
theorem claim_C2 (sid : String) (fs : FileState) (ops : List HookOp)
    (hcons : ConvConsistent fs) :
    List.Pairwise Eq (runResolvedFor sid fs ops) := by
  induction ops generalizing fs with
  | nil => simp [runResolvedFor]
  | cons op rest ih =>
      rw [runResolvedFor]
      by_cases hsid : op.sid = sid
      · rw [if_pos hsid]
        cases hres : (applyOp fs op).resolvedConv with
        | none =>
            simp only [Option.toList_none, List.nil_append]
            exact ih (applyOp fs op).state (convConsistent_applyOp fs op hcons)
        | some c =>
            simp only [Option.toList_some, List.cons_append, List.nil_append,
              List.pairwise_cons]
            constructor
            · intro y hy
              exact (all_resolved_eq sid c rest (applyOp fs op).state
                (convConsistent_applyOp fs op hcons)
                (resolved_spec sid fs op hcons hsid c hres).1 y hy).symm
            · exact ih (applyOp fs op).state (convConsistent_applyOp fs op hcons)
      · rw [if_neg hsid]
        simp only [List.nil_append]
        exact ih (applyOp fs op).state (convConsistent_applyOp fs op hcons)

/-- A run for the C2 witness: SessionStart creates the conversation, a later
Stop-hook delivery and a second SessionStart keep resolving the same id. -/
def c2run : List HookOp :=
  [.sessionStart ("s1") ("conv-1") 200 200,
   .stopHook ("s1") demoTranscript ("conv-9") 200 200,
   .sessionStart ("s1") ("conv-8") 200 200]

theorem claim_C2_witness :
    ConvConsistent emptyFS ∧ List.Pairwise Eq (runResolvedFor ("s1") emptyFS c2run) :=
  have hcons : ConvConsistent emptyFS := fun _ _ _ h _ => Option.noConfusion h
  ⟨hcons, claim_C2 ("s1") emptyFS c2run hcons⟩

end SyncMachine

namespace MemorySync

/-- The scan from here (line-start flag `ls`, remaining suffix `A ++ T`)
never begins a match of the start tag inside `A`. -/
def noStartHit (S T : List Char) : List Char → Bool → Prop
  | [], _ => True
  | c :: rest, ls =>
      (ls = true → ¬ S.isPrefixOf (c :: rest ++ T) = true) ∧
        noStartHit S T rest (c = '\n')

/-- The scan never finds the end tag (at end-of-line) inside `A`. -/
def noEndHit (E T : List Char) : List Char → Bool → Prop
  | [], _ => True
  | c :: rest, ls =>
      (ls = true → ¬ matchEndTag E (c :: rest ++ T) = true) ∧
        noEndHit E T rest (c = '\n')

/-- `S` definitely diverges from `rest` within `rest`'s available characters,
so no continuation can complete a match. -/
def mismatchWithin (S rest : List Char) : Bool :=
  match S, rest with
  | [], _ => false
  | _ :: _, [] => false
  | c :: S2, d :: rest2 => if c = d then mismatchWithin S2 rest2 else true

/-- Decidable sufficient condition for `noStartHit`, independent of the tail. -/
def noStartHitB (S : List Char) : List Char → Bool → Bool
  | [], _ => true
  | c :: rest, ls => (!ls || mismatchWithin S (c :: rest)) && noStartHitB S rest (c = '\n')

theorem mismatchWithin_not_prefix (S rest T : List Char)
    (h : mismatchWithin S rest = true) : S.isPrefixOf (rest ++ T) = false := by
  induction S generalizing rest with
  | nil => simp [mismatchWithin] at h
  | cons c S2 ih =>
      cases rest with
      | nil => simp [mismatchWithin] at h
      | cons d rest2 =>
          by_cases hcd : c = d
          · rw [mismatchWithin, if_pos hcd] at h
            subst hcd
            simpa [List.isPrefixOf] using ih rest2 h
          · simp [List.isPrefixOf, hcd]

theorem noStartHitB_sound (S : List Char) (A : List Char) (ls : Bool) (T : List Char)
    (h : noStartHitB S A ls = true) : noStartHit S T A ls := by
  induction A generalizing ls with
  | nil => trivial
  | cons c rest ih =>
      rw [noStartHitB, Bool.and_eq_true] at h
      refine ⟨fun hls => ?_, ih _ h.2⟩
      rw [hls] at h
      have hmm : mismatchWithin S (c :: rest) = true := by simpa using h.1
      rw [show c :: rest ++ T = (c :: rest) ++ T from rfl,
        mismatchWithin_not_prefix S (c :: rest) T hmm]
      simp

theorem noEndHitB_sound (E : List Char) (A : List Char) (ls : Bool) (T : List Char)
    (h : noStartHitB E A ls = true) : noEndHit E T A ls := by
  induction A generalizing ls with
  | nil => trivial
  | cons c rest ih =>
      rw [noStartHitB, Bool.and_eq_true] at h
      refine ⟨fun hls => ?_, ih _ h.2⟩
      rw [hls] at h
      have hmm : mismatchWithin E (c :: rest) = true := by simpa using h.1
      unfold matchEndTag
      rw [show c :: rest ++ T = (c :: rest) ++ T from rfl,
        mismatchWithin_not_prefix E (c :: rest) T hmm]
      simp

theorem not_prefix_head (a : Char) (S2 : List Char) (c : Char) (B : List Char)
    (hc : ¬ c = a) : (a :: S2).isPrefixOf (c :: B) = false := by
  simp [List.isPrefixOf]
  intro h
  exact absurd h.symm hc

theorem noStartHit_no_open (S T A : List Char) (ls : Bool) (hS : ∃ S2, S = '<' :: S2)
    (hA : ∀ c ∈ A, ¬ c = '<') : noStartHit S T A ls := by
  obtain ⟨S2, rfl⟩ := hS
  induction A generalizing ls with
  | nil => trivial
  | cons c rest ih =>
      refine ⟨fun _ => ?_, ih _ (fun x hx => hA x (List.mem_cons_of_mem _ hx))⟩
      have hc : ¬ c = '<' := hA c (List.mem_cons_self _ _)
      rw [show c :: rest ++ T = c :: (rest ++ T) from rfl,
        not_prefix_head '<' S2 c (rest ++ T) hc]
      simp

theorem noEndHit_no_open (E T A : List Char) (ls : Bool) (hE : ∃ E2, E = '<' :: E2)
    (hA : ∀ c ∈ A, ¬ c = '<') : noEndHit E T A ls := by
  obtain ⟨E2, rfl⟩ := hE
  induction A generalizing ls with
  | nil => trivial
  | cons c rest ih =>
      refine ⟨fun _ => ?_, ih _ (fun x hx => hA x (List.mem_cons_of_mem _ hx))⟩
      have hc : ¬ c = '<' := hA c (List.mem_cons_self _ _)
      unfold matchEndTag
      rw [show c :: rest ++ T = c :: (rest ++ T) from rfl,
        not_prefix_head '<' E2 c (rest ++ T) hc]
      simp

theorem lsAfter_cons (c : Char) (A : List Char) (ls : Bool) :
    lsAfter (c :: A) ls = lsAfter A (c = '\n') := by
  cases A with
  | nil => rfl
  | cons d rest => simp [lsAfter, List.getLast?]

theorem noStartHit_append (S T A B : List Char) (ls : Bool)
    (hA : noStartHit S (B ++ T) A ls) (hB : noStartHit S T B (lsAfter A ls)) :
    noStartHit S T (A ++ B) ls := by
  induction A generalizing ls with
  | nil => simpa [lsAfter] using hB
  | cons c rest ih =>
      obtain ⟨h1, h2⟩ := hA
      rw [lsAfter_cons] at hB
      exact ⟨by simpa using h1, ih _ h2 hB⟩

theorem noEndHit_append (E T A B : List Char) (ls : Bool)
    (hA : noEndHit E (B ++ T) A ls) (hB : noEndHit E T B (lsAfter A ls)) :
    noEndHit E T (A ++ B) ls := by
  induction A generalizing ls with
  | nil => simpa [lsAfter] using hB
  | cons c rest ih =>
      obtain ⟨h1, h2⟩ := hA
      rw [lsAfter_cons] at hB
      exact ⟨by simpa using h1, ih _ h2 hB⟩

end MemorySync

namespace MemorySync

theorem findEnd_cons (E : List Char) (c : Char) (rest : List Char) (ls : Bool) :
    findEnd E (c :: rest) ls =
      if ls && matchEndTag E (c :: rest) then some 0
      else (findEnd E rest (c = '\n')).map (· + 1) := rfl

theorem firstMatch_cons (S E : List Char) (c : Char) (rest : List Char) (ls : Bool) :
    firstMatch S E (c :: rest) ls =
      if ls && S.isPrefixOf (c :: rest) then
        match findEnd E ((c :: rest).drop S.length) (lastIsNl S ls) with
        | some q => some (0, S.length + q + E.length)
        | none => none
      else
        match firstMatch S E rest (c = '\n') with
        | some pe => some (pe.1 + 1, pe.2 + 1)
        | none => none := rfl

theorem findEnd_skip (E T A : List Char) (ls : Bool) (hA : noEndHit E T A ls) :
    findEnd E (A ++ T) ls = (findEnd E T (lsAfter A ls)).map (· + A.length) := by
  induction A generalizing ls with
  | nil =>
      cases h : findEnd E T (lsAfter [] ls) <;> simp_all [lsAfter]
  | cons c rest ih =>
      obtain ⟨h1, h2⟩ := hA
      have hcond : (ls && matchEndTag E (c :: (rest ++ T))) = false := by
        cases ls with
        | false => rfl
        | true => simpa using h1 rfl
      rw [show (c :: rest) ++ T = c :: (rest ++ T) from rfl, findEnd_cons, hcond,
        if_neg (by simp), ih _ h2, lsAfter_cons]
      cases findEnd E T (lsAfter rest (c = '\n')) <;> simp <;> omega

theorem firstMatch_skip (S E T A : List Char) (ls : Bool) (hA : noStartHit S T A ls) :
    firstMatch S E (A ++ T) ls =
      (firstMatch S E T (lsAfter A ls)).map
        (fun pe => (pe.1 + A.length, pe.2 + A.length)) := by
  induction A generalizing ls with
  | nil =>
      cases h : firstMatch S E T (lsAfter [] ls) <;> simp_all [lsAfter]
  | cons c rest ih =>
      obtain ⟨h1, h2⟩ := hA
      have hcond : (ls && S.isPrefixOf (c :: (rest ++ T))) = false := by
        cases ls with
        | false => rfl
        | true =>
            rw [Bool.true_and]
            exact Bool.eq_false_iff.mpr (h1 rfl)
      rw [show (c :: rest) ++ T = c :: (rest ++ T) from rfl, firstMatch_cons, hcond,
        if_neg (by simp), ih _ h2, lsAfter_cons]
      cases firstMatch S E T (lsAfter rest (c = '\n')) <;> simp <;> omega

theorem firstMatch_nil_none (S E : List Char) (ls : Bool) (hS : S ≠ []) :
    firstMatch S E [] ls = none := by
  cases S with
  | nil => exact absurd rfl hS
  | cons s S2 => cases ls <;> simp [firstMatch, List.isPrefixOf]

theorem firstMatch_none_of_noStartHit (S E A : List Char) (ls : Bool) (hS : S ≠ [])
    (hA : noStartHit S [] A ls) : firstMatch S E A ls = none := by
  have := firstMatch_skip S E [] A ls hA
  rw [List.append_nil] at this
  rw [this, firstMatch_nil_none S E _ hS]
  rfl

theorem findEnd_here (E T : List Char) (hE : E ≠ []) (hT : eolAt T = true) :
    findEnd E (E ++ T) true = some 0 := by
  have hm : matchEndTag E (E ++ T) = true := by
    unfold matchEndTag
    rw [List.isPrefixOf_iff_prefix.mpr (List.prefix_append E T), List.drop_left, hT]
    rfl
  cases E with
  | nil => exact absurd rfl hE
  | cons e E2 => rw [show (e :: E2) ++ T = e :: (E2 ++ T) from rfl, findEnd_cons]; simp_all

theorem firstMatch_here (S E R : List Char) (q : Nat) (hS : S ≠ [])
    (hq : findEnd E R (lastIsNl S true) = some q) :
    firstMatch S E (S ++ R) true = some (0, S.length + q + E.length) := by
  cases S with
  | nil => exact absurd rfl hS
  | cons s S2 =>
      rw [show (s :: S2) ++ R = s :: (S2 ++ R) from rfl, firstMatch_cons]
      rw [if_pos]
      · rw [show s :: (S2 ++ R) = (s :: S2) ++ R from rfl, List.drop_left]
        rw [hq]
      · rw [show s :: (S2 ++ R) = (s :: S2) ++ R from rfl,
          List.isPrefixOf_iff_prefix.mpr (List.prefix_append _ R)]
        rfl

theorem getSubstitution_self (matched pre post repl : List Char)
    (h : ∀ c ∈ repl, ¬ c = '$') : getSubstitution matched pre post repl = repl := by
  induction repl with
  | nil => rfl
  | cons c rest ih =>
      have hc : ¬ c = '$' := h c (List.mem_cons_self _ _)
      have hrest := ih (fun x hx => h x (List.mem_cons_of_mem _ hx))
      cases rest with
      | nil => rfl
      | cons d rest2 =>
          rw [getSubstitution, if_neg hc, hrest]

theorem jsTrimEnd_concat (A : List Char) (c : Char) (hc : JsSem.isJsWhitespace c = false) :
    JsSem.jsTrimEnd (A ++ [c]) = A ++ [c] := by
  unfold JsSem.jsTrimEnd
  rw [List.reverse_append]
  simp [List.dropWhile, hc]

theorem jsTrimEnd_concat_ws (A : List Char) (c : Char)
    (hc : JsSem.isJsWhitespace c = true) :
    JsSem.jsTrimEnd (A ++ [c]) = JsSem.jsTrimEnd A := by
  unfold JsSem.jsTrimEnd
  rw [List.reverse_append]
  simp [List.dropWhile, hc]

theorem lsAfter_concat (X : List Char) (c : Char) (ls : Bool) :
    lsAfter (X ++ [c]) ls = decide (c = '\n') := by
  induction X generalizing ls with
  | nil => rfl
  | cons x X2 ih => rw [List.cons_append, lsAfter_cons, ih]

theorem lsAfter_append (A B : List Char) (ls ls2 : Bool) (hB : B ≠ []) :
    lsAfter (A ++ B) ls = lsAfter B ls2 := by
  rcases List.eq_nil_or_concat B with rfl | ⟨B2, c, rfl⟩
  · exact absurd rfl hB
  · rw [List.concat_eq_append, ← List.append_assoc, lsAfter_concat, lsAfter_concat]

theorem noStartHit_false_skip (S T A B : List Char)
    (hA : ∀ c ∈ A, ¬ c = '\n') (hB : noStartHit S T B false) :
    noStartHit S T (A ++ B) false := by
  induction A with
  | nil => exact hB
  | cons c rest ih =>
      refine ⟨fun h => by simp at h, ?_⟩
      have hc : ¬ c = '\n' := hA c (List.mem_cons_self _ _)
      rw [show decide (c = '\n') = false by simpa using hc]
      exact ih (fun x hx => hA x (List.mem_cons_of_mem _ hx))

theorem noEndHit_false_skip (E T A B : List Char)
    (hA : ∀ c ∈ A, ¬ c = '\n') (hB : noEndHit E T B false) :
    noEndHit E T (A ++ B) false := by
  induction A with
  | nil => exact hB
  | cons c rest ih =>
      refine ⟨fun h => by simp at h, ?_⟩
      have hc : ¬ c = '\n' := hA c (List.mem_cons_self _ _)
      rw [show decide (c = '\n') = false by simpa using hc]
      exact ih (fun x hx => hA x (List.mem_cons_of_mem _ hx))

end MemorySync

namespace MemorySync

theorem applySection_append_path (doc S E sect : List Char)
    (h : firstMatch S E doc true = none) :
    applySection doc S E sect = JsSem.jsTrimEnd doc ++ ('\n' :: '\n' :: sect) ++ ['\n'] := by
  unfold applySection
  rw [h]

theorem replaceGlobalAux_succ (S E repl orig : List Char) (fuel : Nat) (s : List Char)
    (pos : Nat) (ls : Bool) :
    replaceGlobalAux S E repl orig (fuel + 1) s pos ls =
      match firstMatch S E s ls with
      | none => s
      | some (p, e) =>
          if e ≤ p then s
          else
            s.take p
              ++ getSubstitution ((s.drop p).take (e - p)) (orig.take (pos + p))
                  (orig.drop (pos + e)) repl
              ++ replaceGlobalAux S E repl orig fuel (s.drop e) (pos + e)
                  (lsAfter ((s.drop p).take (e - p)) ls) := rfl

/-- When the document is exactly `A ++ sect ++ B`, the start tag never fires
inside `A`, the section starts at a line start, the lazy end search inside the
section stops exactly at the section end, no further match follows, and the
section has no dollar characters, the global replace rewrites the section to
itself: the document is a fixed point. -/
theorem applySection_exact (S E sect A B : List Char)
    (hSne : S ≠ []) (hlen : S.length + E.length ≤ sect.length)
    (hA : noStartHit S (sect ++ B) A true)
    (hAls : lsAfter A true = true)
    (hpre : S.isPrefixOf sect = true)
    (hfe : findEnd E (sect.drop S.length ++ B) (lastIsNl S true) =
      some (sect.length - S.length - E.length))
    (hB : firstMatch S E B (lsAfter sect true) = none)
    (hdollar : ∀ c ∈ sect, ¬ c = '$') :
    applySection (A ++ sect ++ B) S E sect = A ++ sect ++ B := by
  have hsectne : sect ≠ [] := by
    intro hnil
    rw [hnil] at hlen
    simp at hlen
    cases S with
    | nil => exact hSne rfl
    | cons s S2 => simp at hlen
  have hfm2 : firstMatch S E (sect ++ B) true = some (0, sect.length) := by
    obtain ⟨rest, hrest⟩ := List.isPrefixOf_iff_prefix.mp hpre
    have hdropB : sect.drop S.length ++ B = rest ++ B := by
      rw [← hrest, List.drop_left]
    rw [hdropB] at hfe
    have := firstMatch_here S E (rest ++ B) (sect.length - S.length - E.length) hSne hfe
    rw [← List.append_assoc, hrest] at this
    rw [this]
    congr 2
    omega
  have hfm : firstMatch S E (A ++ (sect ++ B)) true =
      some (A.length, A.length + sect.length) := by
    rw [firstMatch_skip S E (sect ++ B) A true hA, hAls, hfm2]
    simp [Nat.add_comm]
  have hdrop1 : (A ++ (sect ++ B)).drop A.length = sect ++ B := List.drop_left A _
  have htake1 : (A ++ (sect ++ B)).take A.length = A := List.take_left A _
  have hdrop2 : (A ++ (sect ++ B)).drop (A.length + sect.length) = B := by
    rw [← List.append_assoc]
    exact List.drop_left' (by rw [List.length_append])
  have hsectlen : sect.length ≠ 0 := fun h => hsectne (List.length_eq_zero.mp h)
  have hlen3 : (A ++ (sect ++ B)).length = (A.length + B.length + (sect.length - 1)) + 1 := by
    simp [List.length_append]
    omega
  have hple : ¬ (A.length + sect.length ≤ A.length) := by omega
  have hmatched : ((A ++ (sect ++ B)).drop A.length).take
      (A.length + sect.length - A.length) = sect := by
    rw [hdrop1]
    have h9 : A.length + sect.length - A.length = sect.length := by omega
    rw [h9, List.take_left sect _]
  rw [List.append_assoc]
  unfold applySection
  simp only [hfm]
  unfold replaceGlobal
  rw [replaceGlobalAux_succ]
  simp only [hfm, if_neg hple, Nat.zero_add, hmatched, htake1, hdrop2,
    getSubstitution_self _ _ _ sect hdollar]
  rw [hlen3, replaceGlobalAux_succ]
  simp only [hB, List.append_assoc]

theorem noEndHit_of_noStartHit (E T A : List Char) (ls : Bool)
    (h : noStartHit E T A ls) : noEndHit E T A ls := by
  induction A generalizing ls with
  | nil => trivial
  | cons c rest ih =>
      obtain ⟨h1, h2⟩ := h
      refine ⟨fun hls => ?_, ih _ h2⟩
      unfold matchEndTag
      rw [Bool.eq_false_iff.mpr (h1 hls)]
      simp

theorem mismatchWithin_append (S A B : List Char) (h : mismatchWithin S A = true) :
    mismatchWithin S (A ++ B) = true := by
  induction S generalizing A with
  | nil => simp [mismatchWithin] at h
  | cons c S2 ih =>
      cases A with
      | nil => simp [mismatchWithin] at h
      | cons d A2 =>
          by_cases hcd : c = d
          · rw [mismatchWithin, if_pos hcd] at h
            rw [List.cons_append, mismatchWithin, if_pos hcd]
            exact ih A2 h
          · rw [List.cons_append, mismatchWithin, if_neg hcd]

/-- A pattern containing a greater-than sign cannot match across
a label (free of greater-than) followed by a separator absent from the
pattern. -/
theorem not_prefix_sep (pat label : List Char) (sep : Char) (T : List Char)
    (hgp : '>' ∈ pat) (hgl : ¬ '>' ∈ label) (hsp : ¬ sep ∈ pat) :
    pat.isPrefixOf (label ++ sep :: T) = false := by
  induction pat generalizing label with
  | nil => simp at hgp
  | cons p ps ih =>
      cases label with
      | nil =>
          rw [List.nil_append]
          refine not_prefix_head p ps sep T (fun h => hsp ?_)
          rw [h]
          exact List.mem_cons_self _ _
      | cons l ls2 =>
          rw [List.cons_append]
          by_cases hpl : p = l
          · have hpg : ¬ p = '>' := by
              intro h
              apply hgl
              rw [← hpl, ← h]
              exact List.mem_cons_self _ _
            have hgp2 : '>' ∈ ps := by
              rcases List.mem_cons.mp hgp with h | h
              · exact absurd h.symm hpg
              · exact h
            have hrec := ih ls2 hgp2 (fun h => hgl (List.mem_cons_of_mem _ h))
              (fun h => hsp (List.mem_cons_of_mem _ h))
            subst hpl
            show ((p == p) && ps.isPrefixOf (ls2 ++ sep :: T)) = false
            rw [hrec]
            simp
          · exact not_prefix_head p ps l (ls2 ++ sep :: T) (fun h => hpl h.symm)

/-- A pattern closed by a greater-than sign cannot match a different label
closed the same way (neither containing greater-than inside). -/
theorem prefix_label_gt (pat label T : List Char) (hp : ¬ '>' ∈ pat)
    (hne : ¬ label = pat) (hl : ¬ '>' ∈ label) :
    (pat ++ ['>']).isPrefixOf (label ++ '>' :: T) = false := by
  induction pat generalizing label with
  | nil =>
      cases label with
      | nil => exact absurd rfl hne
      | cons l ls2 =>
          rw [List.nil_append, List.cons_append]
          refine not_prefix_head '>' [] l (ls2 ++ '>' :: T) (fun h => hl ?_)
          rw [← h]
          exact List.mem_cons_self _ _
  | cons p ps ih =>
      cases label with
      | nil =>
          rw [List.nil_append, List.cons_append]
          refine not_prefix_head p (ps ++ ['>']) '>' T (fun h => hp ?_)
          rw [← h]
          exact List.mem_cons_self _ _
      | cons l ls2 =>
          rw [List.cons_append, List.cons_append]
          by_cases hpl : p = l
          · subst hpl
            have hrec := ih ls2 (fun h => hp (List.mem_cons_of_mem _ h))
              (fun h => hne (by rw [h]))
              (fun h => hl (List.mem_cons_of_mem _ h))
            show ((p == p) && (ps ++ ['>']).isPrefixOf (ls2 ++ '>' :: T)) = false
            rw [hrec]
            simp
          · exact not_prefix_head p (ps ++ ['>']) l (ls2 ++ '>' :: T) (fun h => hpl h.symm)

/-- A piece with no newline: only its first position can be a line start. -/
theorem noStartHit_line (S piece T : List Char) (ls : Bool)
    (h0 : ls = true → S.isPrefixOf (piece ++ T) = false)
    (hnl : ∀ c ∈ piece, ¬ c = '\n') : noStartHit S T piece ls := by
  cases piece with
  | nil => trivial
  | cons c rest =>
      refine ⟨fun hls => by rw [List.cons_append] at h0 ⊢; rw [h0 hls]; simp, ?_⟩
      rw [show decide (c = '\n') = false by
        simpa using hnl c (List.mem_cons_self _ _)]
      have := noStartHit_false_skip S T rest [] (fun x hx => hnl x (List.mem_cons_of_mem _ hx))
        (by trivial)
      simpa using this

end MemorySync

namespace MemorySync

theorem foldl_append_data (l : List String) (acc : String) :
    (List.foldl (fun r s => r ++ s) acc l).data =
      acc.data ++ (l.map String.data).flatten := by
  induction l generalizing acc with
  | nil => simp
  | cons a l2 ih =>
      rw [List.foldl_cons, ih, List.map_cons, List.flatten_cons,
        String.data_append, List.append_assoc]

theorem join_data (l : List String) :
    (String.join l).data = (l.map String.data).flatten := by
  unfold String.join
  rw [foldl_append_data]
  rfl

theorem mem_replaceCharAll (x : Char) (c : Char) (t s : String)
    (h : x ∈ (replaceCharAll c t s).data) :
    x ∈ t.data ∨ (x ∈ s.data ∧ ¬ x = c) := by
  unfold replaceCharAll at h
  rw [join_data, List.mem_flatten] at h
  obtain ⟨piece, hpiece, hx⟩ := h
  rw [List.map_map, List.mem_map] at hpiece
  obtain ⟨y, hy, hpy⟩ := hpiece
  by_cases hyc : y = c
  · left
    rw [← hpy] at hx
    simpa [hyc] using hx
  · right
    rw [← hpy] at hx
    simp [hyc] at hx
    subst hx
    exact ⟨hy, hyc⟩

theorem escContent_no_lt (v : String) : ∀ x ∈ (escapeXmlContent v).data, ¬ x = '<' := by
  intro x hx hlt
  subst hlt
  unfold escapeXmlContent at hx
  rcases mem_replaceCharAll _ _ _ _ hx with h | ⟨h, _⟩
  · revert h
    decide
  · rcases mem_replaceCharAll _ _ _ _ h with h2 | ⟨_, h2⟩
    · revert h2
      decide
    · exact h2 rfl

theorem escContent_no_dollar (v : String) (hv : ∀ x ∈ v.data, ¬ x = '$') :
    ∀ x ∈ (escapeXmlContent v).data, ¬ x = '$' := by
  intro x hx hd
  subst hd
  unfold escapeXmlContent at hx
  rcases mem_replaceCharAll _ _ _ _ hx with h | ⟨h, _⟩
  · revert h
    decide
  · rcases mem_replaceCharAll _ _ _ _ h with h2 | ⟨h2, _⟩
    · revert h2
      decide
    · rcases mem_replaceCharAll _ _ _ _ h2 with h3 | ⟨h3, _⟩
      · revert h3
        decide
      · exact hv _ h3 rfl

theorem escAttr_no_nl (v : String) : ∀ x ∈ (escapeXmlAttribute v).data, ¬ x = '\n' := by
  intro x hx hnl
  subst hnl
  unfold escapeXmlAttribute at hx
  rcases mem_replaceCharAll _ _ _ _ hx with h | ⟨_, h⟩
  · revert h
    decide
  · exact h rfl

theorem escAttr_no_lt (v : String) : ∀ x ∈ (escapeXmlAttribute v).data, ¬ x = '<' := by
  intro x hx hlt
  subst hlt
  unfold escapeXmlAttribute at hx
  rcases mem_replaceCharAll _ _ _ _ hx with h | ⟨h, _⟩
  · revert h
    decide
  · rcases mem_replaceCharAll _ _ _ _ h with h2 | ⟨h2, _⟩
    · revert h2
      decide
    · rcases mem_replaceCharAll _ _ _ _ h2 with h3 | ⟨h3, hne⟩
      · revert h3
        decide
      · exact hne rfl

theorem escAttr_no_dollar (v : String) (hv : ∀ x ∈ v.data, ¬ x = '$') :
    ∀ x ∈ (escapeXmlAttribute v).data, ¬ x = '$' := by
  intro x hx hd
  subst hd
  unfold escapeXmlAttribute at hx
  rcases mem_replaceCharAll _ _ _ _ hx with h | ⟨h, _⟩
  · revert h
    decide
  · rcases mem_replaceCharAll _ _ _ _ h with h2 | ⟨h2, _⟩
    · revert h2
      decide
    · rcases mem_replaceCharAll _ _ _ _ h2 with h3 | ⟨h3, _⟩
      · revert h3
        decide
      · rcases mem_replaceCharAll _ _ _ _ h3 with h4 | ⟨h4, _⟩
        · revert h4
          decide
        · rcases mem_replaceCharAll _ _ _ _ h4 with h5 | ⟨h5, _⟩
          · revert h5
            decide
          · rcases mem_replaceCharAll _ _ _ _ h5 with h6 | ⟨h6, _⟩
            · revert h6
              decide
            · exact hv _ h6 rfl

end MemorySync

namespace MemorySync

/-- Characters of free text (agent name, description, id, message text,
timestamp) that keep the merged document stable: no tag opener, no
substitution pattern. -/
def goodTextChar (c : Char) : Bool := !(c = '<' || c = '$')

def goodText (s : String) : Bool := s.data.all goodTextChar

/-- Characters allowed in a memory-block label for a stable merge. -/
def goodLabelChar (c : Char) : Bool :=
  !(c = '<' || c = '>' || c = '\n' || c = '$' || c = '/' || c = ' ')

/-- A memory block whose rendering cannot confuse the section regexes:
well-behaved label characters, label distinct from the section tag name, and
no substitution patterns in the escaped texts. -/
def blockOk (b : MemoryBlock) : Bool :=
  b.label.data.all goodLabelChar && !(b.label == "letta")
    && (jsOrEmpty b.description).data.all (fun c => !(c = '$'))
    && (jsOrEmpty b.value).data.all (fun c => !(c = '$'))

def agentOk (agent : Agent) : Bool :=
  goodText agent.name
    && goodText (JsSem.jsOrD agent.description ("No description provided"))
    && goodText agent.id
    && (match agent.blocks with
        | none => true
        | some bs => bs.all blockOk)

def msgOk (m : Option LastMessageInfo) : Bool :=
  match m with
  | none => true
  | some mi => goodText mi.text && goodText (mi.date.getD (""))

/-- The start scan never fires inside this piece, whatever follows it and
whatever the entry line-start flag. -/
def NoHitP (S piece : List Char) : Prop := ∀ T ls, noStartHit S T piece ls

theorem NoHitP_append (S A B : List Char) (hA : NoHitP S A) (hB : NoHitP S B) :
    NoHitP S (A ++ B) :=
  fun T ls => noStartHit_append S T A B ls (hA (B ++ T) ls) (hB T _)

theorem NoHitP_of_B (S A : List Char) (h : ∀ ls, noStartHitB S A ls = true) :
    NoHitP S A :=
  fun T ls => noStartHitB_sound S A ls T (h ls)

theorem NoHitP_no_open (S2 A : List Char) (hA : ∀ c ∈ A, ¬ c = '<') :
    NoHitP ('<' :: S2) A :=
  fun T ls => noStartHit_no_open _ T A ls ⟨S2, rfl⟩ hA

theorem NoHitP_line (S piece : List Char) (h0 : ∀ T, S.isPrefixOf (piece ++ T) = false)
    (hnl : ∀ c ∈ piece, ¬ c = '\n') : NoHitP S piece :=
  fun T ls => noStartHit_line S piece T ls (fun _ => h0 T) hnl

theorem NoHitP_nil (S : List Char) : NoHitP S [] := fun _ _ => trivial

theorem intercalate_go_append (x y s : String) (l : List String) :
    String.intercalate.go (x ++ y) s l = x ++ String.intercalate.go y s l := by
  induction l generalizing y with
  | nil => rfl
  | cons a as ih =>
      show String.intercalate.go ((x ++ y) ++ s ++ a) s as
        = x ++ String.intercalate.go (y ++ s ++ a) s as
      rw [String.append_assoc x y s, String.append_assoc x (y ++ s) a]
      exact ih (y ++ s ++ a)

theorem intercalate_cons_cons (s a b : String) (l : List String) :
    String.intercalate s (a :: b :: l) = a ++ s ++ String.intercalate s (b :: l) := by
  show String.intercalate.go (a ++ s ++ b) s l = a ++ s ++ String.intercalate.go b s l
  rw [intercalate_go_append (a ++ s) b s l]

theorem intercalate_singleton (s a : String) : String.intercalate s [a] = a := rfl

theorem NoHitP_intercalate (S : List Char) (l : List String)
    (hnl : NoHitP S ['\n'])
    (hpieces : ∀ a ∈ l, NoHitP S a.data) :
    NoHitP S (String.intercalate ("\n") l).data := by
  induction l with
  | nil => exact NoHitP_nil S
  | cons a l2 ih =>
      cases l2 with
      | nil => exact hpieces a (List.mem_cons_self _ _)
      | cons b l3 =>
          rw [intercalate_cons_cons]
          rw [String.data_append, String.data_append]
          refine NoHitP_append S _ _ (NoHitP_append S _ _ ?_ hnl) ?_
          · exact hpieces a (List.mem_cons_self _ _)
          · exact ih (fun x hx => hpieces x (List.mem_cons_of_mem _ hx))

theorem mem_intercalate_nl (x : Char) (l : List String)
    (h : x ∈ (String.intercalate ("\n") l).data) :
    x = '\n' ∨ ∃ a ∈ l, x ∈ a.data := by
  induction l with
  | nil => simp [String.intercalate] at h
  | cons a l2 ih =>
      cases l2 with
      | nil =>
          rw [intercalate_singleton] at h
          exact Or.inr ⟨a, List.mem_cons_self _ _, h⟩
      | cons b l3 =>
          rw [intercalate_cons_cons, String.data_append, String.data_append] at h
          rcases List.mem_append.mp h with h1 | h2
          · rcases List.mem_append.mp h1 with h3 | h4
            · exact Or.inr ⟨a, List.mem_cons_self _ _, h3⟩
            · left
              simpa using h4
          · rcases ih h2 with h5 | ⟨c, hc, hxc⟩
            · exact Or.inl h5
            · exact Or.inr ⟨c, List.mem_cons_of_mem _ hc, hxc⟩

end MemorySync

namespace MemorySync

theorem isPrefixOf_cons_same (a : Char) (S2 X : List Char) :
    (a :: S2).isPrefixOf (a :: X) = S2.isPrefixOf X := by
  simp [List.isPrefixOf]

theorem NoHitP_no_open_piece (S2 : List Char) (s : String)
    (h : s.data.all (fun c => !(c = '<')) = true) : NoHitP ('<' :: S2) s.data :=
  NoHitP_no_open S2 s.data (by
    intro c hc
    have := List.all_eq_true.mp h c hc
    simpa using this)

/-- The fixed middle of the memory-blocks section. -/
def middleStr (agent : Agent) : String :=
  match agent.blocks with
  | none => "<!-- No memory blocks found -->"
  | some blocks =>
      if blocks.isEmpty then "<!-- No memory blocks found -->"
      else String.intercalate ("\n") (blocks.map formatBlock)

theorem formatMemoryBlocksAsXml_eq (agent : Agent) :
    formatMemoryBlocksAsXml agent =
      LETTA_SECTION_START ++ "\n" ++ formatContextSection agent ++ "\n\n"
        ++ LETTA_MEMORY_START ++ "\n" ++ middleStr agent ++ "\n" ++ LETTA_MEMORY_END
        ++ "\n" ++ LETTA_SECTION_END := by
  unfold formatMemoryBlocksAsXml middleStr
  cases agent.blocks with
  | none => rfl
  | some bs =>
      by_cases hbs : bs.isEmpty <;> simp [hbs]

def CTXa : String := "<letta_context>"
def CTXb : String := "\n**Subconscious Layer (Letta Agent)**\n\nAgent: "
def CTXc : String := "\nDescription: "
def CTXd : String := "\nView: "
def CTXe : String := "https://app.letta.com"
def CTXf : String := "/agents/"
def CTXg : String := "\n\nThis agent maintains persistent memory across your sessions. It observes your conversations asynchronously and provides guidance below in <letta_message>. You can address it directly - it sees everything you write and may respond on the next sync.\n\nMemory blocks below are the agent\x27s long-term storage. Reference as needed.\n"
def CTXh : String := "</letta_context>"

set_option maxRecDepth 40000 in
theorem ctx_data (agent : Agent) :
    (formatContextSection agent).data =
      CTXa.data ++ CTXb.data ++ (JsSem.jsOrD (some agent.name) ("Unnamed Agent")).data
        ++ CTXc.data ++ (JsSem.jsOrD agent.description ("No description provided")).data
        ++ CTXd.data ++ CTXe.data ++ CTXf.data ++ agent.id.data
        ++ CTXg.data ++ CTXh.data := by
  unfold formatContextSection LETTA_APP_BASE LETTA_CONTEXT_START LETTA_CONTEXT_END
    CTXa CTXb CTXc CTXd CTXe CTXf CTXg CTXh
  simp [String.data_append, List.append_assoc]

theorem formatBlock_data (b : MemoryBlock) :
    (formatBlock b).data =
      ('<' :: (b.label.data ++ (" description=\"").data
          ++ (escapeXmlAttribute (jsOrEmpty b.description)).data ++ ['"', '>']))
        ++ ['\n'] ++ (escapeXmlContent (jsOrEmpty b.value)).data ++ ['\n']
        ++ ('<' :: '/' :: (b.label.data ++ ['>'])) := by
  unfold formatBlock
  simp [String.data_append, List.append_assoc,
    show ("<" : String).data = ['<'] from rfl,
    show ("\">\n" : String).data = ['"', '>', '\n'] from rfl,
    show ("\n</" : String).data = ['\n', '<', '/'] from rfl,
    show (">" : String).data = ['>'] from rfl]

def MSGa : String := "\n<!-- No recent message from "
def MSGb : String := " -->\n"
def MSGc : String := "\n<!--\n  ASYNC MESSAGE FROM LETTA AGENT\n  \n  This is the most recent message from \""
def MSGd : String := "\".\n  \n  NOTE: This message may not be current or directly relevant to your current task.\n  The Letta agent processes Claude Code conversations asynchronously and may provide\n  commentary, guidance, or context that was generated in response to earlier interactions.\n  \n  "
def MSGe : String := "\n-->\n\n"

/-- The middle of the rendered message section, per branch. -/
def mmidS (agent : Agent) (messageInfo : Option LastMessageInfo) : String :=
  let agentName := JsSem.jsOrD (some agent.name) ("Unnamed Agent")
  match messageInfo with
  | none => MSGa ++ agentName ++ MSGb
  | some mi =>
      let timestamp :=
        if JsSem.truthyS mi.date then "**Timestamp**: " ++ mi.date.getD ("")
        else "**Timestamp**: Unknown"
      MSGc ++ agentName ++ MSGd ++ timestamp ++ MSGe ++ mi.text ++ "\n"

set_option maxRecDepth 40000 in
theorem M_decomp (agent : Agent) (messageInfo : Option LastMessageInfo) :
    (formatLastMessageAsXml agent messageInfo).data =
      LETTA_MESSAGE_START.data ++ (mmidS agent messageInfo).data
        ++ LETTA_MESSAGE_END.data := by
  unfold formatLastMessageAsXml mmidS MSGa MSGb MSGc MSGd MSGe
    LETTA_MESSAGE_START LETTA_MESSAGE_END
  cases messageInfo with
  | none => simp [String.data_append, List.append_assoc]
  | some mi => simp [String.data_append, List.append_assoc]

def lmidS (agent : Agent) : String :=
  "\n" ++ formatContextSection agent ++ "\n\n" ++ LETTA_MEMORY_START ++ "\n"
    ++ middleStr agent ++ "\n" ++ LETTA_MEMORY_END ++ "\n"

theorem L_decomp (agent : Agent) :
    (formatMemoryBlocksAsXml agent).data =
      LETTA_SECTION_START.data ++ (lmidS agent).data ++ LETTA_SECTION_END.data := by
  rw [formatMemoryBlocksAsXml_eq]
  unfold lmidS
  simp [String.data_append, List.append_assoc]

end MemorySync

namespace MemorySync

theorem goodLabelChar_spec (c : Char) (h : goodLabelChar c = true) :
    ¬ c = '<' ∧ ¬ c = '>' ∧ ¬ c = '\n' ∧ ¬ c = '$' ∧ ¬ c = '/' ∧ ¬ c = ' ' := by
  simpa [goodLabelChar, not_or, and_assoc] using h

theorem blockOk_parts (b : MemoryBlock) (hb : blockOk b = true) :
    (∀ c ∈ b.label.data, goodLabelChar c = true) ∧ ¬ b.label = "letta"
      ∧ (∀ c ∈ (jsOrEmpty b.description).data, ¬ c = '$')
      ∧ (∀ c ∈ (jsOrEmpty b.value).data, ¬ c = '$') := by
  rw [blockOk, Bool.and_eq_true, Bool.and_eq_true, Bool.and_eq_true] at hb
  obtain ⟨⟨⟨hl, hne⟩, hd⟩, hv⟩ := hb
  refine ⟨List.all_eq_true.mp hl, by simpa using hne, ?_, ?_⟩
  · intro c hc
    simpa using List.all_eq_true.mp hd c hc
  · intro c hc
    simpa using List.all_eq_true.mp hv c hc

theorem goodText_chars (s : String) (h : goodText s = true) :
    ∀ c ∈ s.data, ¬ c = '<' ∧ ¬ c = '$' := by
  intro c hc
  have := List.all_eq_true.mp h c hc
  simpa [goodTextChar, not_or] using this

theorem NoHitP_goodText (S2 : List Char) (s : String) (h : goodText s = true) :
    NoHitP ('<' :: S2) s.data :=
  NoHitP_no_open S2 s.data (fun c hc => (goodText_chars s h c hc).1)

theorem goodText_jsOrD_some (s d : String) (hs : goodText s = true)
    (hd : goodText d = true) : goodText (JsSem.jsOrD (some s) d) = true := by
  unfold JsSem.jsOrD
  by_cases he : s.isEmpty <;> simp [he, hs, hd]

theorem NoHitP_formatBlock (body : List Char) (b : MemoryBlock) (hb : blockOk b = true)
    (hopen : ∀ T2, body.isPrefixOf (b.label.data ++ ' ' :: T2) = false)
    (hclose : ∀ T2, body.isPrefixOf ('/' :: (b.label.data ++ '>' :: T2)) = false) :
    NoHitP ('<' :: body) (formatBlock b).data := by
  obtain ⟨hlab, _, _, _⟩ := blockOk_parts b hb
  have hlabnl : ∀ c ∈ b.label.data, ¬ c = '\n' :=
    fun c hc => (goodLabelChar_spec c (hlab c hc)).2.2.1
  rw [formatBlock_data]
  refine NoHitP_append _ _ _ (NoHitP_append _ _ _ (NoHitP_append _ _ _
    (NoHitP_append _ _ _ ?_ ?_) ?_) ?_) ?_
  · refine NoHitP_line _ _ (fun T => ?_) (fun c hc => ?_)
    · rw [List.cons_append, isPrefixOf_cons_same]
      simp only [List.append_assoc, List.cons_append,
        show (" description=\"" : String).data
          = ' ' :: ("description=\"" : String).data from rfl]
      exact hopen _
    · rcases List.mem_cons.mp hc with rfl | hc2
      · decide
      rcases List.mem_append.mp hc2 with h3 | h3
      · rcases List.mem_append.mp h3 with h4 | h4
        · rcases List.mem_append.mp h4 with h5 | h5
          · exact hlabnl c h5
          · exact (by decide : ∀ x ∈ (" description=\"" : String).data, ¬ x = '\n') c h5
        · exact escAttr_no_nl _ c h4
      · exact (by decide : ∀ x ∈ ['"', '>'], ¬ x = '\n') c h3
  · exact NoHitP_no_open _ _ (by decide)
  · exact NoHitP_no_open _ _ (escContent_no_lt _)
  · exact NoHitP_no_open _ _ (by decide)
  · refine NoHitP_line _ _ (fun T => ?_) (fun c hc => ?_)
    · rw [List.cons_append, isPrefixOf_cons_same]
      simp only [List.append_assoc, List.cons_append, List.singleton_append]
      exact hclose _
    · rcases List.mem_cons.mp hc with rfl | hc2
      · decide
      rcases List.mem_cons.mp hc2 with rfl | hc3
      · decide
      rcases List.mem_append.mp hc3 with h4 | h4
      · exact hlabnl c h4
      · exact (by decide : ∀ x ∈ ['>'], ¬ x = '\n') c h4

end MemorySync

namespace MemorySync

theorem agentOk_parts (agent : Agent) (hag : agentOk agent = true) :
    goodText agent.name = true
      ∧ goodText (JsSem.jsOrD agent.description ("No description provided")) = true
      ∧ goodText agent.id = true
      ∧ (∀ bs, agent.blocks = some bs → ∀ b ∈ bs, blockOk b = true) := by
  rw [agentOk, Bool.and_eq_true, Bool.and_eq_true, Bool.and_eq_true] at hag
  obtain ⟨⟨⟨hn, hd⟩, hi⟩, hb⟩ := hag
  refine ⟨hn, hd, hi, fun bs hbs b hbmem => ?_⟩
  rw [hbs] at hb
  exact List.all_eq_true.mp hb b hbmem

theorem NoHitP_ctx (body : List Char) (agent : Agent) (hag : agentOk agent = true)
    (hBa : ∀ ls, noStartHitB ('<' :: body) CTXa.data ls = true)
    (hBg : ∀ ls, noStartHitB ('<' :: body) CTXg.data ls = true)
    (hBh : ∀ ls, noStartHitB ('<' :: body) CTXh.data ls = true) :
    NoHitP ('<' :: body) (formatContextSection agent).data := by
  obtain ⟨hn, hd, hi, _⟩ := agentOk_parts agent hag
  rw [ctx_data]
  have p1 := NoHitP_of_B _ _ hBa
  have p2 := NoHitP_no_open_piece body CTXb (by decide)
  have p3 := NoHitP_goodText body _
    (goodText_jsOrD_some agent.name ("Unnamed Agent") hn (by decide))
  have p4 := NoHitP_no_open_piece body CTXc (by decide)
  have p5 := NoHitP_goodText body _ hd
  have p6 := NoHitP_no_open_piece body CTXd (by decide)
  have p7 := NoHitP_no_open_piece body CTXe (by decide)
  have p8 := NoHitP_no_open_piece body CTXf (by decide)
  have p9 := NoHitP_goodText body _ hi
  have p10 := NoHitP_of_B _ _ hBg
  have p11 := NoHitP_of_B _ _ hBh
  exact NoHitP_append _ _ _ (NoHitP_append _ _ _ (NoHitP_append _ _ _
    (NoHitP_append _ _ _ (NoHitP_append _ _ _ (NoHitP_append _ _ _
    (NoHitP_append _ _ _ (NoHitP_append _ _ _ (NoHitP_append _ _ _
    (NoHitP_append _ _ _ p1 p2) p3) p4) p5) p6) p7) p8) p9) p10) p11

theorem middleStr_eq_none (agent : Agent) (h : agent.blocks = none) :
    middleStr agent = "<!-- No memory blocks found -->" := by
  unfold middleStr
  rw [h]

theorem middleStr_eq_some (agent : Agent) (bs : List MemoryBlock)
    (h : agent.blocks = some bs) :
    middleStr agent =
      if bs.isEmpty then "<!-- No memory blocks found -->"
      else String.intercalate ("\n") (bs.map formatBlock) := by
  unfold middleStr
  rw [h]

theorem NoHitP_middle (body : List Char) (agent : Agent) (hag : agentOk agent = true)
    (hBnone : ∀ ls,
      noStartHitB ('<' :: body) ("<!-- No memory blocks found -->").data ls = true)
    (hopenH : ∀ label : List Char, (∀ c ∈ label, goodLabelChar c = true) →
      ∀ T2, body.isPrefixOf (label ++ ' ' :: T2) = false)
    (hcloseH : ∀ label : List Char, (∀ c ∈ label, goodLabelChar c = true) →
      ¬ label = ("letta").data →
      ∀ T2, body.isPrefixOf ('/' :: (label ++ '>' :: T2)) = false) :
    NoHitP ('<' :: body) (middleStr agent).data := by
  obtain ⟨_, _, _, hbs⟩ := agentOk_parts agent hag
  cases hb : agent.blocks with
  | none =>
      rw [middleStr_eq_none agent hb]
      exact NoHitP_of_B _ _ hBnone
  | some bs =>
      rw [middleStr_eq_some agent bs hb]
      cases hemp : bs.isEmpty with
      | true =>
          rw [if_pos rfl]
          exact NoHitP_of_B _ _ hBnone
      | false =>
          rw [if_neg (by simp)]
          refine NoHitP_intercalate _ _ (NoHitP_no_open _ _ (by decide)) ?_
          intro a ha
          rw [List.mem_map] at ha
          obtain ⟨b, hbmem, rfl⟩ := ha
          have hbok := hbs bs hb b hbmem
          obtain ⟨hlab, hne, _, _⟩ := blockOk_parts b hbok
          refine NoHitP_formatBlock body b hbok (hopenH _ hlab) (hcloseH _ hlab ?_)
          intro hEq
          exact hne (String.ext hEq)

theorem NoHitP_lmid (body : List Char) (agent : Agent) (hag : agentOk agent = true)
    (hBa : ∀ ls, noStartHitB ('<' :: body) CTXa.data ls = true)
    (hBg : ∀ ls, noStartHitB ('<' :: body) CTXg.data ls = true)
    (hBh : ∀ ls, noStartHitB ('<' :: body) CTXh.data ls = true)
    (hBms : ∀ ls, noStartHitB ('<' :: body) LETTA_MEMORY_START.data ls = true)
    (hBme : ∀ ls, noStartHitB ('<' :: body) LETTA_MEMORY_END.data ls = true)
    (hBnone : ∀ ls,
      noStartHitB ('<' :: body) ("<!-- No memory blocks found -->").data ls = true)
    (hopenH : ∀ label : List Char, (∀ c ∈ label, goodLabelChar c = true) →
      ∀ T2, body.isPrefixOf (label ++ ' ' :: T2) = false)
    (hcloseH : ∀ label : List Char, (∀ c ∈ label, goodLabelChar c = true) →
      ¬ label = ("letta").data →
      ∀ T2, body.isPrefixOf ('/' :: (label ++ '>' :: T2)) = false) :
    NoHitP ('<' :: body) (lmidS agent).data := by
  unfold lmidS
  simp only [String.data_append]
  have pnl := NoHitP_no_open_piece body ("\n") (by decide)
  have pctx := NoHitP_ctx body agent hag hBa hBg hBh
  have pnl2 := NoHitP_no_open_piece body ("\n\n") (by decide)
  have pmid := NoHitP_middle body agent hag hBnone hopenH hcloseH
  exact NoHitP_append _ _ _ (NoHitP_append _ _ _ (NoHitP_append _ _ _
    (NoHitP_append _ _ _ (NoHitP_append _ _ _ (NoHitP_append _ _ _
    (NoHitP_append _ _ _ (NoHitP_append _ _ _ pnl pctx) pnl2)
    (NoHitP_of_B _ _ hBms)) pnl) pmid) pnl) (NoHitP_of_B _ _ hBme)) pnl

theorem NoHitP_L (body : List Char) (agent : Agent) (hag : agentOk agent = true)
    (hBa : ∀ ls, noStartHitB ('<' :: body) CTXa.data ls = true)
    (hBg : ∀ ls, noStartHitB ('<' :: body) CTXg.data ls = true)
    (hBh : ∀ ls, noStartHitB ('<' :: body) CTXh.data ls = true)
    (hBms : ∀ ls, noStartHitB ('<' :: body) LETTA_MEMORY_START.data ls = true)
    (hBme : ∀ ls, noStartHitB ('<' :: body) LETTA_MEMORY_END.data ls = true)
    (hBnone : ∀ ls,
      noStartHitB ('<' :: body) ("<!-- No memory blocks found -->").data ls = true)
    (hBss : ∀ ls, noStartHitB ('<' :: body) LETTA_SECTION_START.data ls = true)
    (hBse : ∀ ls, noStartHitB ('<' :: body) LETTA_SECTION_END.data ls = true)
    (hopenH : ∀ label : List Char, (∀ c ∈ label, goodLabelChar c = true) →
      ∀ T2, body.isPrefixOf (label ++ ' ' :: T2) = false)
    (hcloseH : ∀ label : List Char, (∀ c ∈ label, goodLabelChar c = true) →
      ¬ label = ("letta").data →
      ∀ T2, body.isPrefixOf ('/' :: (label ++ '>' :: T2)) = false) :
    NoHitP ('<' :: body) (formatMemoryBlocksAsXml agent).data := by
  rw [L_decomp]
  exact NoHitP_append _ _ _ (NoHitP_append _ _ _ (NoHitP_of_B _ _ hBss)
    (NoHitP_lmid body agent hag hBa hBg hBh hBms hBme hBnone hopenH hcloseH))
    (NoHitP_of_B _ _ hBse)

set_option maxRecDepth 40000 in
theorem NoHitP_mmid (body : List Char) (agent : Agent)
    (messageInfo : Option LastMessageInfo) (hag : agentOk agent = true)
    (hm : msgOk messageInfo = true)
    (hBmsga : ∀ ls, noStartHitB ('<' :: body) MSGa.data ls = true)
    (hBmsgc : ∀ ls, noStartHitB ('<' :: body) MSGc.data ls = true) :
    NoHitP ('<' :: body) (mmidS agent messageInfo).data := by
  obtain ⟨hn, _, _, _⟩ := agentOk_parts agent hag
  have hname := NoHitP_goodText body _
    (goodText_jsOrD_some agent.name ("Unnamed Agent") hn (by decide))
  unfold mmidS
  cases messageInfo with
  | none =>
      simp only [String.data_append]
      exact NoHitP_append _ _ _ (NoHitP_append _ _ _ (NoHitP_of_B _ _ hBmsga) hname)
        (NoHitP_no_open_piece body MSGb (by decide))
  | some mi =>
      have hmOk : goodText mi.text = true ∧ goodText (mi.date.getD ("")) = true := by
        simpa [msgOk, Bool.and_eq_true] using hm
      have hts : NoHitP ('<' :: body)
          (if JsSem.truthyS mi.date then "**Timestamp**: " ++ mi.date.getD ("")
            else "**Timestamp**: Unknown").data := by
        cases htr : JsSem.truthyS mi.date with
        | false =>
            simp only [Bool.false_eq_true, if_false]
            exact NoHitP_no_open_piece body ("**Timestamp**: Unknown") (by decide)
        | true =>
            simp only [if_pos, String.data_append]
            exact NoHitP_append _ _ _
              (NoHitP_no_open_piece body ("**Timestamp**: ") (by decide))
              (NoHitP_goodText body _ hmOk.2)
      simp only [String.data_append]
      exact NoHitP_append _ _ _ (NoHitP_append _ _ _ (NoHitP_append _ _ _
        (NoHitP_append _ _ _ (NoHitP_append _ _ _ (NoHitP_append _ _ _
        (NoHitP_of_B _ _ hBmsgc) hname)
        (NoHitP_no_open_piece body MSGd (by decide))) hts)
        (NoHitP_no_open_piece body MSGe (by decide)))
        (NoHitP_goodText body _ hmOk.1))
        (NoHitP_no_open_piece body ("\n") (by decide))

theorem NoHitP_M (body : List Char) (agent : Agent)
    (messageInfo : Option LastMessageInfo) (hag : agentOk agent = true)
    (hm : msgOk messageInfo = true)
    (hBmsga : ∀ ls, noStartHitB ('<' :: body) MSGa.data ls = true)
    (hBmsgc : ∀ ls, noStartHitB ('<' :: body) MSGc.data ls = true)
    (hBmss : ∀ ls, noStartHitB ('<' :: body) LETTA_MESSAGE_START.data ls = true)
    (hBmse : ∀ ls, noStartHitB ('<' :: body) LETTA_MESSAGE_END.data ls = true) :
    NoHitP ('<' :: body) (formatLastMessageAsXml agent messageInfo).data := by
  rw [M_decomp]
  exact NoHitP_append _ _ _ (NoHitP_append _ _ _ (NoHitP_of_B _ _ hBmss)
    (NoHitP_mmid body agent messageInfo hag hm hBmsga hBmsgc))
    (NoHitP_of_B _ _ hBmse)

end MemorySync

namespace MemorySync

theorem block_no_dollar (b : MemoryBlock) (hb : blockOk b = true) :
    ∀ c ∈ (formatBlock b).data, ¬ c = '$' := by
  obtain ⟨hlab, _, hdatt, hval⟩ := blockOk_parts b hb
  intro c hc hdol
  subst hdol
  rw [formatBlock_data] at hc
  rcases List.mem_append.mp hc with h1 | h1
  · rcases List.mem_append.mp h1 with h2 | h2
    · rcases List.mem_append.mp h2 with h3 | h3
      · rcases List.mem_append.mp h3 with h4 | h4
        · rcases List.mem_cons.mp h4 with h5 | h5
          · exact absurd h5 (by decide)
          rcases List.mem_append.mp h5 with h6 | h6
          · rcases List.mem_append.mp h6 with h7 | h7
            · rcases List.mem_append.mp h7 with h8 | h8
              · exact (goodLabelChar_spec _ (hlab _ h8)).2.2.2.1 rfl
              · exact (by decide : ∀ x ∈ (" description=\"" : String).data,
                  ¬ x = '$') _ h8 rfl
            · exact escAttr_no_dollar _ hdatt _ h7 rfl
          · exact (by decide : ∀ x ∈ ['"', '>'], ¬ x = '$') _ h6 rfl
        · exact absurd h4 (by decide)
      · exact escContent_no_dollar _ hval _ h3 rfl
    · exact absurd h2 (by decide)
  · rcases List.mem_cons.mp h1 with h2 | h2
    · exact absurd h2 (by decide)
    rcases List.mem_cons.mp h2 with h3 | h3
    · exact absurd h3 (by decide)
    rcases List.mem_append.mp h3 with h4 | h4
    · exact (goodLabelChar_spec _ (hlab _ h4)).2.2.2.1 rfl
    · exact absurd h4 (by decide)

theorem middle_no_dollar (agent : Agent) (hag : agentOk agent = true) :
    ∀ c ∈ (middleStr agent).data, ¬ c = '$' := by
  obtain ⟨_, _, _, hbs⟩ := agentOk_parts agent hag
  intro c hc hdol
  subst hdol
  cases hb : agent.blocks with
  | none =>
      rw [middleStr_eq_none agent hb] at hc
      exact absurd hc (by decide)
  | some bs =>
      rw [middleStr_eq_some agent bs hb] at hc
      cases hemp : bs.isEmpty with
      | true =>
          rw [hemp, if_pos rfl] at hc
          exact absurd hc (by decide)
      | false =>
          rw [hemp, if_neg (by simp)] at hc
          rcases mem_intercalate_nl _ _ hc with h1 | ⟨a, ha, hxa⟩
          · exact absurd h1 (by decide)
          · rw [List.mem_map] at ha
            obtain ⟨b, hbmem, rfl⟩ := ha
            exact block_no_dollar b (hbs bs hb b hbmem) _ hxa rfl

set_option maxRecDepth 40000 in
theorem ctx_no_dollar (agent : Agent) (hag : agentOk agent = true) :
    ∀ c ∈ (formatContextSection agent).data, ¬ c = '$' := by
  obtain ⟨hn, hd, hi, _⟩ := agentOk_parts agent hag
  intro c hc hdol
  subst hdol
  rw [ctx_data] at hc
  have hn2 := goodText_jsOrD_some agent.name ("Unnamed Agent") hn (by decide)
  rcases List.mem_append.mp hc with h1 | h1
  · rcases List.mem_append.mp h1 with h2 | h2
    · rcases List.mem_append.mp h2 with h3 | h3
      · rcases List.mem_append.mp h3 with h4 | h4
        · rcases List.mem_append.mp h4 with h5 | h5
          · rcases List.mem_append.mp h5 with h6 | h6
            · rcases List.mem_append.mp h6 with h7 | h7
              · rcases List.mem_append.mp h7 with h8 | h8
                · rcases List.mem_append.mp h8 with h9 | h9
                  · rcases List.mem_append.mp h9 with h10 | h10
                    · exact absurd h10 (by decide)
                    · exact absurd h10 (by decide)
                  · exact (goodText_chars _ hn2 _ h9).2 rfl
                · exact absurd h8 (by decide)
              · exact (goodText_chars _ hd _ h7).2 rfl
            · exact absurd h6 (by decide)
          · exact absurd h5 (by decide)
        · exact absurd h4 (by decide)
      · exact (goodText_chars _ hi _ h3).2 rfl
    · exact absurd h2 (by decide)
  · exact absurd h1 (by decide)

theorem L_no_dollar (agent : Agent) (hag : agentOk agent = true) :
    ∀ c ∈ (formatMemoryBlocksAsXml agent).data, ¬ c = '$' := by
  intro c hc hdol
  subst hdol
  rw [L_decomp] at hc
  unfold lmidS at hc
  simp only [String.data_append, List.append_assoc, List.mem_append] at hc
  rcases hc with h | h | h | h | h | h | h | h | h | h | h
  · exact absurd h (by decide)
  · exact absurd h (by decide)
  · exact ctx_no_dollar agent hag _ h rfl
  · exact absurd h (by decide)
  · exact absurd h (by decide)
  · exact absurd h (by decide)
  · exact middle_no_dollar agent hag _ h rfl
  · exact absurd h (by decide)
  · exact absurd h (by decide)
  · exact absurd h (by decide)
  · exact absurd h (by decide)

set_option maxRecDepth 40000 in
theorem M_no_dollar (agent : Agent) (messageInfo : Option LastMessageInfo)
    (hag : agentOk agent = true) (hm : msgOk messageInfo = true) :
    ∀ c ∈ (formatLastMessageAsXml agent messageInfo).data, ¬ c = '$' := by
  obtain ⟨hn, _, _, _⟩ := agentOk_parts agent hag
  have hn2 := goodText_jsOrD_some agent.name ("Unnamed Agent") hn (by decide)
  intro c hc hdol
  subst hdol
  rw [M_decomp] at hc
  unfold mmidS at hc
  cases messageInfo with
  | none =>
      simp only [String.data_append, List.append_assoc, List.mem_append] at hc
      rcases hc with h | h | h | h | h
      · exact absurd h (by decide)
      · exact absurd h (by decide)
      · exact (goodText_chars _ hn2 _ h).2 rfl
      · exact absurd h (by decide)
      · exact absurd h (by decide)
  | some mi =>
      have hmOk : goodText mi.text = true ∧ goodText (mi.date.getD ("")) = true := by
        simpa [msgOk, Bool.and_eq_true] using hm
      simp only [String.data_append, List.append_assoc, List.mem_append] at hc
      rcases hc with h | h | h | h | h | h | h | h | h
      · exact absurd h (by decide)
      · exact absurd h (by decide)
      · exact (goodText_chars _ hn2 _ h).2 rfl
      · exact absurd h (by decide)
      · cases htr : JsSem.truthyS mi.date with
        | false =>
            rw [htr, if_neg (by simp)] at h
            exact absurd h (by decide)
        | true =>
            rw [htr, if_pos rfl, String.data_append, List.mem_append] at h
            rcases h with h7 | h7
            · exact absurd h7 (by decide)
            · exact (goodText_chars _ hmOk.2 _ h7).2 rfl
      · exact absurd h (by decide)
      · exact (goodText_chars _ hmOk.1 _ h).2 rfl
      · exact absurd h (by decide)
      · exact absurd h (by decide)

end MemorySync

namespace MemorySync

set_option maxRecDepth 100000 in
/-- The message tag never fires at a line start inside the rendered
memory-blocks section. -/
theorem NoHitP_L_Sm (agent : Agent) (hag : agentOk agent = true) :
    NoHitP LETTA_MESSAGE_START.data (formatMemoryBlocksAsXml agent).data :=
  NoHitP_L (("letta_message>").data) agent hag
    (by decide) (by decide) (by decide) (by decide) (by decide) (by decide)
    (by decide) (by decide)
    (fun label hlab T2 => not_prefix_sep _ label ' ' T2 (by decide)
      (fun hm => (goodLabelChar_spec _ (hlab _ hm)).2.1 rfl) (by decide))
    (fun label hlab hne T2 => not_prefix_head 'l' (("etta_message>").data) '/'
      (label ++ '>' :: T2) (by decide))

set_option maxRecDepth 100000 in
/-- The section end tag never matches at a line start strictly inside the
middle of the rendered memory-blocks section. -/
theorem NoHitP_lmid_El (agent : Agent) (hag : agentOk agent = true) :
    NoHitP LETTA_SECTION_END.data (lmidS agent).data :=
  NoHitP_lmid (("/letta>").data) agent hag
    (by decide) (by decide) (by decide) (by decide) (by decide) (by decide)
    (fun label hlab T2 => not_prefix_sep _ label ' ' T2 (by decide)
      (fun hm => (goodLabelChar_spec _ (hlab _ hm)).2.1 rfl) (by decide))
    (fun label hlab hne T2 => by
      have h1 : (("/letta>").data).isPrefixOf ('/' :: (label ++ '>' :: T2))
          = (("letta").data ++ ['>']).isPrefixOf (label ++ '>' :: T2) := rfl
      rw [h1]
      exact prefix_label_gt (("letta").data) label T2 (by decide) hne
        (fun hm => (goodLabelChar_spec _ (hlab _ hm)).2.1 rfl))

set_option maxRecDepth 100000 in
/-- The section start tag never fires at a line start inside the rendered
message section. -/
theorem NoHitP_M_Sl (agent : Agent) (messageInfo : Option LastMessageInfo)
    (hag : agentOk agent = true) (hm : msgOk messageInfo = true) :
    NoHitP LETTA_SECTION_START.data (formatLastMessageAsXml agent messageInfo).data :=
  NoHitP_M (("letta>").data) agent messageInfo hag hm
    (by decide) (by decide) (by decide) (by decide)

set_option maxRecDepth 100000 in
/-- The message end tag never matches at a line start strictly inside the
middle of the rendered message section. -/
theorem NoHitP_mmid_Em (agent : Agent) (messageInfo : Option LastMessageInfo)
    (hag : agentOk agent = true) (hm : msgOk messageInfo = true) :
    NoHitP LETTA_MESSAGE_END.data (mmidS agent messageInfo).data :=
  NoHitP_mmid (("/letta_message>").data) agent messageInfo hag hm
    (by decide) (by decide)

theorem L_isPrefix (agent : Agent) :
    LETTA_SECTION_START.data.isPrefixOf (formatMemoryBlocksAsXml agent).data = true := by
  rw [L_decomp, List.append_assoc]
  exact List.isPrefixOf_iff_prefix.mpr (List.prefix_append _ _)

theorem M_isPrefix (agent : Agent) (messageInfo : Option LastMessageInfo) :
    LETTA_MESSAGE_START.data.isPrefixOf
      (formatLastMessageAsXml agent messageInfo).data = true := by
  rw [M_decomp, List.append_assoc]
  exact List.isPrefixOf_iff_prefix.mpr (List.prefix_append _ _)

theorem L_length (agent : Agent) :
    (formatMemoryBlocksAsXml agent).data.length = 15 + (lmidS agent).data.length := by
  rw [L_decomp]
  simp only [List.length_append]
  have h1 : LETTA_SECTION_START.data.length = 7 := by decide
  have h2 : LETTA_SECTION_END.data.length = 8 := by decide
  omega

theorem M_length (agent : Agent) (messageInfo : Option LastMessageInfo) :
    (formatLastMessageAsXml agent messageInfo).data.length
      = 31 + (mmidS agent messageInfo).data.length := by
  rw [M_decomp]
  simp only [List.length_append]
  have h1 : LETTA_MESSAGE_START.data.length = 15 := by decide
  have h2 : LETTA_MESSAGE_END.data.length = 16 := by decide
  omega

theorem lmid_ends_nl (agent : Agent) (ls : Bool) :
    lsAfter (lmidS agent).data ls = true := by
  unfold lmidS
  simp only [String.data_append]
  rw [lsAfter_append _ (("\n").data) _ true (by decide)]
  decide

theorem mmid_ends_nl (agent : Agent) (messageInfo : Option LastMessageInfo) (ls : Bool) :
    lsAfter (mmidS agent messageInfo).data ls = true := by
  unfold mmidS
  cases messageInfo with
  | none =>
      simp only [String.data_append]
      rw [lsAfter_append _ (MSGb.data) _ true (by decide)]
      decide
  | some mi =>
      simp only [String.data_append]
      rw [lsAfter_append _ (("\n").data) _ true (by decide)]
      decide

theorem L_findEnd (agent : Agent) (hag : agentOk agent = true) (B : List Char)
    (hB : eolAt B = true) :
    findEnd LETTA_SECTION_END.data
        ((formatMemoryBlocksAsXml agent).data.drop LETTA_SECTION_START.data.length ++ B)
        (lastIsNl LETTA_SECTION_START.data true)
      = some ((formatMemoryBlocksAsXml agent).data.length
          - LETTA_SECTION_START.data.length - LETTA_SECTION_END.data.length) := by
  have hdrop : (formatMemoryBlocksAsXml agent).data.drop LETTA_SECTION_START.data.length
      = (lmidS agent).data ++ LETTA_SECTION_END.data := by
    rw [L_decomp, List.append_assoc]
    exact List.drop_left' rfl
  rw [hdrop, List.append_assoc]
  rw [findEnd_skip _ _ _ _ (noEndHit_of_noStartHit _ _ _ _
    (NoHitP_lmid_El agent hag _ _))]
  rw [lmid_ends_nl, findEnd_here _ B (by decide) hB]
  have hlen := L_length agent
  simp only [Option.map_some']
  rw [show (0 : Nat) + (lmidS agent).data.length = (lmidS agent).data.length by omega]
  congr 1
  have : LETTA_SECTION_START.data.length = 7 := by decide
  have h2 : LETTA_SECTION_END.data.length = 8 := by decide
  omega

theorem M_findEnd (agent : Agent) (messageInfo : Option LastMessageInfo)
    (hag : agentOk agent = true) (hm : msgOk messageInfo = true) (B : List Char)
    (hB : eolAt B = true) :
    findEnd LETTA_MESSAGE_END.data
        ((formatLastMessageAsXml agent messageInfo).data.drop
          LETTA_MESSAGE_START.data.length ++ B)
        (lastIsNl LETTA_MESSAGE_START.data true)
      = some ((formatLastMessageAsXml agent messageInfo).data.length
          - LETTA_MESSAGE_START.data.length - LETTA_MESSAGE_END.data.length) := by
  have hdrop : (formatLastMessageAsXml agent messageInfo).data.drop
      LETTA_MESSAGE_START.data.length
      = (mmidS agent messageInfo).data ++ LETTA_MESSAGE_END.data := by
    rw [M_decomp, List.append_assoc]
    exact List.drop_left' rfl
  rw [hdrop, List.append_assoc]
  rw [findEnd_skip _ _ _ _ (noEndHit_of_noStartHit _ _ _ _
    (NoHitP_mmid_Em agent messageInfo hag hm _ _))]
  rw [mmid_ends_nl, findEnd_here _ B (by decide) hB]
  have hlen := M_length agent messageInfo
  simp only [Option.map_some']
  rw [show (0 : Nat) + (mmidS agent messageInfo).data.length
    = (mmidS agent messageInfo).data.length by omega]
  congr 1
  have : LETTA_MESSAGE_START.data.length = 15 := by decide
  have h2 : LETTA_MESSAGE_END.data.length = 16 := by decide
  omega

end MemorySync

namespace MemorySync

theorem prefix_overlap_mem (S X T : List Char) (c : Char)
    (hpre : S.isPrefixOf (X ++ T) = true) (hlen : X.length < S.length)
    (hT : T.head? = some c) : c ∈ S := by
  induction X generalizing S with
  | nil =>
      cases S with
      | nil => simp at hlen
      | cons s S2 =>
          cases T with
          | nil => simp at hT
          | cons c2 T2 =>
              have hc2 : c2 = c := by simpa using hT
              rw [List.nil_append] at hpre
              have : (s == c2) = true := by
                rw [List.isPrefixOf, Bool.and_eq_true] at hpre
                exact hpre.1
              have hs : s = c2 := by simpa using this
              rw [hs, hc2]
              exact List.mem_cons_self _ _
  | cons x X2 ih =>
      cases S with
      | nil => simp at hlen
      | cons s S2 =>
          rw [List.cons_append, List.isPrefixOf, Bool.and_eq_true] at hpre
          have := ih S2 hpre.2 (by simpa using hlen)
          exact List.mem_cons_of_mem _ this

theorem prefix_of_append_of_le (S X T : List Char)
    (hpre : S.isPrefixOf (X ++ T) = true) (hlen : S.length ≤ X.length) :
    S.isPrefixOf X = true := by
  rw [List.isPrefixOf_iff_prefix] at hpre ⊢
  have h1 : S = X.take S.length := by
    have h0 := List.prefix_iff_eq_take.mp hpre
    rw [List.take_append_of_le_length hlen] at h0
    exact h0
  have h2 : X.take S.length <+: X := List.take_prefix _ _
  rw [← h1] at h2
  exact h2

theorem noStartHit_of_no_occ_nl (S A T : List Char) (ls : Bool)
    (hocc : ∀ p, ¬ S.isPrefixOf (A.drop p) = true)
    (hT : T.head? = some '\n') (hnl : ¬ '\n' ∈ S) :
    noStartHit S T A ls := by
  induction A generalizing ls with
  | nil => trivial
  | cons c rest ih =>
      refine ⟨fun _ hpre => ?_, ih _ (fun p => hocc (p + 1))⟩
      rw [show c :: rest ++ T = (c :: rest) ++ T from rfl] at hpre
      by_cases hlen : (c :: rest).length < S.length
      · exact hnl (prefix_overlap_mem S (c :: rest) T '\n' hpre hlen hT)
      · have h2 := prefix_of_append_of_le S (c :: rest) T hpre (by omega)
        exact hocc 0 (by simpa using h2)

theorem noStartHit_of_no_occ_nil (S A : List Char) (ls : Bool)
    (hocc : ∀ p, ¬ S.isPrefixOf (A.drop p) = true) :
    noStartHit S [] A ls := by
  induction A generalizing ls with
  | nil => trivial
  | cons c rest ih =>
      refine ⟨fun _ hpre => ?_, ih _ (fun p => hocc (p + 1))⟩
      rw [List.append_nil] at hpre
      exact hocc 0 (by simpa using hpre)

theorem no_occ_of_no_marker (S A : List Char) (h : ¬ S <:+: A) :
    ∀ p, ¬ S.isPrefixOf (A.drop p) = true := by
  intro p hp
  apply h
  have h1 : S <+: A.drop p := List.isPrefixOf_iff_prefix.mp hp
  exact h1.isInfix.trans (List.drop_suffix p A).isInfix

theorem jsTrimEnd_isPre (A : List Char) : JsSem.jsTrimEnd A <+: A := by
  unfold JsSem.jsTrimEnd
  have h := List.dropWhile_suffix (l := A.reverse) JsSem.isJsWhitespace
  have h2 := List.reverse_prefix.mpr h
  simpa using h2

theorem not_infix_trimEnd (S A : List Char) (h : ¬ S <:+: A) :
    ¬ S <:+: JsSem.jsTrimEnd A :=
  fun hinf => h (hinf.trans (jsTrimEnd_isPre A).isInfix)

theorem L_concat_gt (agent : Agent) :
    (formatMemoryBlocksAsXml agent).data
      = (LETTA_SECTION_START.data ++ (lmidS agent).data ++ ("</letta").data)
          ++ ['>'] := by
  rw [L_decomp]
  rw [show LETTA_SECTION_END.data = ("</letta").data ++ ['>'] from rfl]
  simp [List.append_assoc]

theorem M_concat_gt (agent : Agent) (messageInfo : Option LastMessageInfo) :
    (formatLastMessageAsXml agent messageInfo).data
      = (LETTA_MESSAGE_START.data ++ (mmidS agent messageInfo).data
          ++ ("</letta_message").data) ++ ['>'] := by
  rw [M_decomp]
  rw [show LETTA_MESSAGE_END.data = ("</letta_message").data ++ ['>'] from rfl]
  simp [List.append_assoc]

end MemorySync

namespace MemorySync

theorem asString_data (l : List Char) : (l.asString).data = l := rfl

theorem trim_after_append (X : List Char) (agent : Agent) :
    JsSem.jsTrimEnd ((X ++ ('\n' :: '\n' :: (formatMemoryBlocksAsXml agent).data))
        ++ ['\n'])
      = X ++ ('\n' :: '\n' :: (formatMemoryBlocksAsXml agent).data) := by
  rw [jsTrimEnd_concat_ws _ '\n' (by decide)]
  rw [L_concat_gt agent]
  have hshape : X ++ ('\n' :: '\n' :: ((LETTA_SECTION_START.data ++ (lmidS agent).data
        ++ ("</letta").data) ++ ['>']))
      = (X ++ ('\n' :: '\n' :: (LETTA_SECTION_START.data ++ (lmidS agent).data
        ++ ("</letta").data))) ++ ['>'] := by
    simp [List.append_assoc]
  rw [hshape, jsTrimEnd_concat _ '>' (by decide), ← hshape, ← L_concat_gt agent]

/-- On a document free of stray section markers, the merge appends both
rendered sections after the trimmed document. -/
theorem updateClaudeMd_data (d : String) (agent : Agent)
    (messageInfo : Option LastMessageInfo)
    (hd1 : ¬ LETTA_SECTION_START.data <:+: d.data)
    (hd2 : ¬ LETTA_MESSAGE_START.data <:+: d.data)
    (hag : agentOk agent = true) (hm : msgOk messageInfo = true) :
    (updateClaudeMd (some d) (formatMemoryBlocksAsXml agent)
        (formatLastMessageAsXml agent messageInfo)).data
      = ((JsSem.jsTrimEnd d.data
          ++ ('\n' :: '\n' :: (formatMemoryBlocksAsXml agent).data))
          ++ ('\n' :: '\n' :: (formatLastMessageAsXml agent messageInfo).data))
          ++ ['\n'] := by
  have hfm1 : firstMatch LETTA_SECTION_START.data LETTA_SECTION_END.data d.data true
      = none := by
    apply firstMatch_none_of_noStartHit _ _ _ _ (by decide)
    exact noStartHit_of_no_occ_nil _ _ _ (no_occ_of_no_marker _ _ hd1)
  have hfm2 : firstMatch LETTA_MESSAGE_START.data LETTA_MESSAGE_END.data
      ((JsSem.jsTrimEnd d.data
        ++ ('\n' :: '\n' :: (formatMemoryBlocksAsXml agent).data)) ++ ['\n']) true
      = none := by
    apply firstMatch_none_of_noStartHit _ _ _ _ (by decide)
    rw [List.append_assoc]
    apply noStartHit_append
    · exact noStartHit_of_no_occ_nl _ _ _ _
        (no_occ_of_no_marker _ _ (not_infix_trimEnd _ _ hd2)) rfl (by decide)
    · exact (NoHitP_append _ _ _ (NoHitP_no_open _ ['\n'] (by decide))
        (NoHitP_append _ _ _ (NoHitP_no_open _ ['\n'] (by decide))
          (NoHitP_append _ _ _ (NoHitP_L_Sm agent hag)
            (NoHitP_no_open _ ['\n'] (by decide))))) [] _
  show ((applySection (applySection d.data LETTA_SECTION_START.data
      LETTA_SECTION_END.data (formatMemoryBlocksAsXml agent).data)
      LETTA_MESSAGE_START.data LETTA_MESSAGE_END.data
      (formatLastMessageAsXml agent messageInfo).data).asString).data = _
  rw [asString_data, applySection_append_path _ _ _ _ hfm1,
    applySection_append_path _ _ _ _ hfm2,
    trim_after_append (JsSem.jsTrimEnd d.data) agent]

end MemorySync

namespace MemorySync

/-- C3 (amended): the CLAUDE.md merge is idempotent provided the
pre-existing document contains no stray section-start markers and the
fetched content renders without tag-confusing characters. -/
theorem claim_C3 (d : String) (agent : Agent) (messageInfo : Option LastMessageInfo)
    (hd1 : ¬ LETTA_SECTION_START.data <:+: d.data)
    (hd2 : ¬ LETTA_MESSAGE_START.data <:+: d.data)
    (hag : agentOk agent = true) (hm : msgOk messageInfo = true) :
    updateClaudeMd (some (updateClaudeMd (some d) (formatMemoryBlocksAsXml agent)
        (formatLastMessageAsXml agent messageInfo)))
      (formatMemoryBlocksAsXml agent) (formatLastMessageAsXml agent messageInfo)
      = updateClaudeMd (some d) (formatMemoryBlocksAsXml agent)
          (formatLastMessageAsXml agent messageInfo) := by
  have hR := updateClaudeMd_data d agent messageInfo hd1 hd2 hag hm
  have hstepA : applySection
      (((JsSem.jsTrimEnd d.data ++ ('\n' :: '\n' :: (formatMemoryBlocksAsXml agent).data))
        ++ ('\n' :: '\n' :: (formatLastMessageAsXml agent messageInfo).data)) ++ ['\n'])
      LETTA_SECTION_START.data LETTA_SECTION_END.data
      (formatMemoryBlocksAsXml agent).data
      = (((JsSem.jsTrimEnd d.data
          ++ ('\n' :: '\n' :: (formatMemoryBlocksAsXml agent).data))
          ++ ('\n' :: '\n' :: (formatLastMessageAsXml agent messageInfo).data))
          ++ ['\n']) := by
    have hshape : (((JsSem.jsTrimEnd d.data
          ++ ('\n' :: '\n' :: (formatMemoryBlocksAsXml agent).data))
          ++ ('\n' :: '\n' :: (formatLastMessageAsXml agent messageInfo).data))
          ++ ['\n'])
        = ((JsSem.jsTrimEnd d.data ++ ['\n', '\n'])
            ++ (formatMemoryBlocksAsXml agent).data)
          ++ (('\n' :: '\n' :: (formatLastMessageAsXml agent messageInfo).data)
            ++ ['\n']) := by
      simp [List.append_assoc]
    rw [hshape]
    refine applySection_exact _ _ _ _ _ (by decide) ?_ ?_ ?_ ?_ ?_ ?_ ?_
    · have h1 := L_length agent
      have h2 : LETTA_SECTION_START.data.length = 7 := by decide
      have h3 : LETTA_SECTION_END.data.length = 8 := by decide
      omega
    · apply noStartHit_append
      · exact noStartHit_of_no_occ_nl _ _ _ _
          (no_occ_of_no_marker _ _ (not_infix_trimEnd _ _ hd1)) rfl (by decide)
      · exact NoHitP_no_open _ ['\n', '\n'] (by decide) _ _
    · rw [lsAfter_append (JsSem.jsTrimEnd d.data) ['\n', '\n'] true true (by decide)]
      decide
    · exact L_isPrefix agent
    · exact L_findEnd agent hag _ rfl
    · apply firstMatch_none_of_noStartHit _ _ _ _ (by decide)
      exact (NoHitP_append _ _ _ (NoHitP_no_open _ ['\n'] (by decide))
        (NoHitP_append _ _ _ (NoHitP_no_open _ ['\n'] (by decide))
          (NoHitP_append _ _ _ (NoHitP_M_Sl agent messageInfo hag hm)
            (NoHitP_no_open _ ['\n'] (by decide))))) [] _
    · exact L_no_dollar agent hag
  have hstepB : applySection
      (((JsSem.jsTrimEnd d.data ++ ('\n' :: '\n' :: (formatMemoryBlocksAsXml agent).data))
        ++ ('\n' :: '\n' :: (formatLastMessageAsXml agent messageInfo).data)) ++ ['\n'])
      LETTA_MESSAGE_START.data LETTA_MESSAGE_END.data
      (formatLastMessageAsXml agent messageInfo).data
      = (((JsSem.jsTrimEnd d.data
          ++ ('\n' :: '\n' :: (formatMemoryBlocksAsXml agent).data))
          ++ ('\n' :: '\n' :: (formatLastMessageAsXml agent messageInfo).data))
          ++ ['\n']) := by
    have hshape : (((JsSem.jsTrimEnd d.data
          ++ ('\n' :: '\n' :: (formatMemoryBlocksAsXml agent).data))
          ++ ('\n' :: '\n' :: (formatLastMessageAsXml agent messageInfo).data))
          ++ ['\n'])
        = (((JsSem.jsTrimEnd d.data
            ++ ('\n' :: '\n' :: (formatMemoryBlocksAsXml agent).data)) ++ ['\n', '\n'])
            ++ (formatLastMessageAsXml agent messageInfo).data)
          ++ ['\n'] := by
      simp [List.append_assoc]
    rw [hshape]
    refine applySection_exact _ _ _ _ _ (by decide) ?_ ?_ ?_ ?_ ?_ ?_ ?_
    · have h1 := M_length agent messageInfo
      have h2 : LETTA_MESSAGE_START.data.length = 15 := by decide
      have h3 : LETTA_MESSAGE_END.data.length = 16 := by decide
      omega
    · apply noStartHit_append
      · apply noStartHit_append
        · exact noStartHit_of_no_occ_nl _ _ _ _
            (no_occ_of_no_marker _ _ (not_infix_trimEnd _ _ hd2)) rfl (by decide)
        · exact (NoHitP_append _ _ _ (NoHitP_no_open _ ['\n'] (by decide))
            (NoHitP_append _ _ _ (NoHitP_no_open _ ['\n'] (by decide))
              (NoHitP_L_Sm agent hag))) _ _
      · exact NoHitP_no_open _ ['\n', '\n'] (by decide) _ _
    · rw [lsAfter_append _ ['\n', '\n'] true true (by decide)]
      decide
    · exact M_isPrefix agent messageInfo
    · exact M_findEnd agent messageInfo hag hm _ rfl
    · apply firstMatch_none_of_noStartHit _ _ _ _ (by decide)
      exact NoHitP_no_open _ ['\n'] (by decide) [] _
    · exact M_no_dollar agent messageInfo hag hm
  have hgoal : updateClaudeMd (some (updateClaudeMd (some d)
      (formatMemoryBlocksAsXml agent) (formatLastMessageAsXml agent messageInfo)))
      (formatMemoryBlocksAsXml agent) (formatLastMessageAsXml agent messageInfo)
      = (applySection (applySection
          ((((JsSem.jsTrimEnd d.data
            ++ ('\n' :: '\n' :: (formatMemoryBlocksAsXml agent).data))
            ++ ('\n' :: '\n' :: (formatLastMessageAsXml agent messageInfo).data))
            ++ ['\n']))
          LETTA_SECTION_START.data LETTA_SECTION_END.data
          (formatMemoryBlocksAsXml agent).data)
        LETTA_MESSAGE_START.data LETTA_MESSAGE_END.data
        (formatLastMessageAsXml agent messageInfo).data).asString := by
    show (applySection (applySection (updateClaudeMd (some d)
        (formatMemoryBlocksAsXml agent) (formatLastMessageAsXml agent messageInfo)).data
        LETTA_SECTION_START.data LETTA_SECTION_END.data
        (formatMemoryBlocksAsXml agent).data)
      LETTA_MESSAGE_START.data LETTA_MESSAGE_END.data
      (formatLastMessageAsXml agent messageInfo).data).asString = _
    rw [hR]
  rw [hgoal, hstepA, hstepB]
  exact String.ext (by rw [asString_data, hR])

/-- The agent of the C3 counterexample: a plain agent with no blocks. -/
def c3agent : Agent :=
  { id := "agent-1", name := "A", description := none, blocks := some [] }

set_option maxRecDepth 400000 in
/-- C3 counterexample: on a pre-existing document consisting of a stray
section-start marker, the first merge appends the rendered sections after the
marker; the second merge then matches from the stray marker through the
appended section and rewrites the document, so the merge is not idempotent. -/
theorem claim_C3_counterexample :
    ¬ (updateClaudeMd (some (updateClaudeMd (some ("<letta>"))
        (formatMemoryBlocksAsXml c3agent) (formatLastMessageAsXml c3agent none)))
        (formatMemoryBlocksAsXml c3agent) (formatLastMessageAsXml c3agent none)
      = updateClaudeMd (some ("<letta>"))
        (formatMemoryBlocksAsXml c3agent) (formatLastMessageAsXml c3agent none)) := by
  decide

/-- Witness data: a well-behaved agent with one memory block. -/
def wBlock : MemoryBlock :=
  { label := "memory", description := some ("notes"), value := some ("v1") }

def wAgent : Agent :=
  { id := "agent-1", name := "A", description := some ("helper"),
    blocks := some [wBlock] }

def wMsg : Option LastMessageInfo := some { text := "hello", date := some ("2024-01-01") }

set_option maxRecDepth 400000 in
theorem claim_C3_witness :
    updateClaudeMd (some (updateClaudeMd (some ("# Notes\n"))
        (formatMemoryBlocksAsXml wAgent) (formatLastMessageAsXml wAgent wMsg)))
      (formatMemoryBlocksAsXml wAgent) (formatLastMessageAsXml wAgent wMsg)
      = updateClaudeMd (some ("# Notes\n"))
        (formatMemoryBlocksAsXml wAgent) (formatLastMessageAsXml wAgent wMsg) :=
  claim_C3 ("# Notes\n") wAgent wMsg (by decide) (by decide) (by decide) (by decide)

set_option maxRecDepth 400000 in
/-- C10: with no existing CLAUDE.md, the merge seeds the fixed Project
Context template and appends both tagged sections after it; with an existing
marker-free document, the document is preserved (up to trailing-whitespace
trim) as a prefix and the sections are appended after it. -/
theorem claim_C10 (d : String) (agent : Agent) (messageInfo : Option LastMessageInfo)
    (hd1 : ¬ LETTA_SECTION_START.data <:+: d.data)
    (hd2 : ¬ LETTA_MESSAGE_START.data <:+: d.data)
    (hag : agentOk agent = true) (hm : msgOk messageInfo = true) :
    updateClaudeMd none (formatMemoryBlocksAsXml agent)
        (formatLastMessageAsXml agent messageInfo)
      = ("# Project Context\n\n<!-- Letta agent memory is automatically synced below -->"
          ++ "\n\n" ++ formatMemoryBlocksAsXml agent ++ "\n\n"
          ++ formatLastMessageAsXml agent messageInfo ++ "\n")
    ∧ updateClaudeMd (some d) (formatMemoryBlocksAsXml agent)
        (formatLastMessageAsXml agent messageInfo)
      = ((JsSem.jsTrimEnd d.data).asString ++ "\n\n" ++ formatMemoryBlocksAsXml agent
          ++ "\n\n" ++ formatLastMessageAsXml agent messageInfo ++ "\n") := by
  have hmain : ∀ d2 : String, ¬ LETTA_SECTION_START.data <:+: d2.data →
      ¬ LETTA_MESSAGE_START.data <:+: d2.data →
      updateClaudeMd (some d2) (formatMemoryBlocksAsXml agent)
          (formatLastMessageAsXml agent messageInfo)
        = ((JsSem.jsTrimEnd d2.data).asString ++ "\n\n" ++ formatMemoryBlocksAsXml agent
            ++ "\n\n" ++ formatLastMessageAsXml agent messageInfo ++ "\n") := by
    intro d2 h1 h2
    apply String.ext
    rw [updateClaudeMd_data d2 agent messageInfo h1 h2 hag hm]
    simp [String.data_append, asString_data, List.append_assoc,
      show ("\n\n" : String).data = ['\n', '\n'] from rfl,
      show ("\n" : String).data = ['\n'] from rfl]
  constructor
  · have h0 := hmain CLAUDE_MD_TEMPLATE (by decide) (by decide)
    rw [show updateClaudeMd none (formatMemoryBlocksAsXml agent)
        (formatLastMessageAsXml agent messageInfo)
      = updateClaudeMd (some CLAUDE_MD_TEMPLATE) (formatMemoryBlocksAsXml agent)
        (formatLastMessageAsXml agent messageInfo) from rfl, h0]
    rw [show (JsSem.jsTrimEnd CLAUDE_MD_TEMPLATE.data).asString
      = ("# Project Context\n\n<!-- Letta agent memory is automatically synced below -->"
          : String) by decide]
  · exact hmain d hd1 hd2

set_option maxRecDepth 400000 in
theorem claim_C10_witness :
    updateClaudeMd none (formatMemoryBlocksAsXml wAgent)
        (formatLastMessageAsXml wAgent wMsg)
      = ("# Project Context\n\n<!-- Letta agent memory is automatically synced below -->"
          ++ "\n\n" ++ formatMemoryBlocksAsXml wAgent ++ "\n\n"
          ++ formatLastMessageAsXml wAgent wMsg ++ "\n")
    ∧ updateClaudeMd (some ("# Notes\n")) (formatMemoryBlocksAsXml wAgent)
        (formatLastMessageAsXml wAgent wMsg)
      = ((JsSem.jsTrimEnd ("# Notes\n" : String).data).asString ++ "\n\n"
          ++ formatMemoryBlocksAsXml wAgent
          ++ "\n\n" ++ formatLastMessageAsXml wAgent wMsg ++ "\n") :=
  claim_C10 ("# Notes\n") wAgent wMsg (by decide) (by decide) (by decide) (by decide)

end MemorySync
